import Mathlib

/-!
Verification development for the payroll entry/reporting program
`CIS261PayrollbyDateChriswalker.py`.

Modelling conventions:
* Python floats are embedded exactly: a float value is a `PyFloat` — a finite
  value carried as an exact rational (`ℚ`), or one of the IEEE special values
  inf, -inf and nan, which `float()` parses from their spellings and which the
  hours/rate readers can accept.  Binary rounding of decimal literals is
  outside the embedding, so all finite arithmetic is exact.  The report
  scanner's record values are embedded over finite (rational) numeric
  fields — the values the program's own serializer writes for
  reader-accepted finite inputs; `parseFloat` below is `float()` restricted
  to finite results.  Strings are ASCII (the program's own prompts and
  serializer never leave ASCII).
* The interactive console is a script: a `List String` of operator inputs,
  consumed one line per prompt.  A loop that would keep prompting past the end
  of the script returns an `exhausted` marker.
* The storage file is a `List String` of lines (without trailing newlines);
  appending a record appends one line.  A missing file is `Option.none`.
* `print` calls are display glue and are not modelled, except that the report
  scanner records skipped malformed lines (line number and content) and the
  report on a missing file is a distinguished constructor.
-/

/-! ## Python-style string primitives -/

/-- The ASCII whitespace characters stripped by Python's `str.strip()`. -/
def pyWS (c : Char) : Bool :=
  decide (c = ' ' ∨ c = '\t' ∨ c = '\n' ∨ c = '\r' ∨ c = '\x0b' ∨ c = '\x0c')

/-- Strip whitespace from both ends of a character list. -/
def trimList (l : List Char) : List Char :=
  ((l.dropWhile pyWS).reverse.dropWhile pyWS).reverse

/-- Model of Python `str.strip()`. -/
def pyStrip (s : String) : String := ⟨trimList s.data⟩

/-- Model of Python `str.lower()` (ASCII). -/
def pyLower (s : String) : String := ⟨s.data.map Char.toLower⟩

/-- Split a character list on a separator character, Python
`str.split(sep)` style: `splitC c [] = [[]]` and separators delimit
(possibly empty) fields. -/
def splitC (c : Char) : List Char → List (List Char)
  | [] => [[]]
  | x :: xs =>
    let r := splitC c xs
    if x = c then [] :: r
    else
      match r with
      | [] => [[x]]
      | y :: ys => (x :: y) :: ys

/-- Join fields with a separator character (left inverse of `splitC`). -/
def joinC (c : Char) : List (List Char) → List Char
  | [] => []
  | [x] => x
  | x :: y :: ys => x ++ c :: joinC c (y :: ys)

/-- Model of Python `str.split(sep)` for a one-character separator. -/
def pySplit (c : Char) (s : String) : List String :=
  (splitC c s.data).map (fun l => ⟨l⟩)

/-! ## Decimal digits -/

/-- Numeric value of a decimal digit character. -/
def digitVal (c : Char) : Nat := c.toNat - 48

/-- Character of a decimal digit value (`d < 10`). -/
def digitChar (d : Nat) : Char := Char.ofNat (48 + d)

/-- Value of a big-endian digit-character list. -/
def digitsValList (l : List Char) : Nat :=
  l.foldl (fun a c => 10 * a + digitVal c) 0

/-- Value of a little-endian digit list. -/
def digitsValRev (l : List Nat) : Nat :=
  l.foldr (fun d a => d + 10 * a) 0

/-- Little-endian decimal digits of `n` (fuel-driven so that it reduces). -/
def toDigitsRevAux : Nat → Nat → List Nat
  | 0, _ => []
  | fuel + 1, n => if n = 0 then [] else n % 10 :: toDigitsRevAux fuel (n / 10)

/-- Big-endian decimal digit characters of `n` (`"0"` for zero). -/
def natToChars (n : Nat) : List Char :=
  if n = 0 then ['0'] else ((toDigitsRevAux n n).map digitChar).reverse

/-- Pad a digit list on the left with `'0'` up to length `k`. -/
def padZeros (k : Nat) (l : List Char) : List Char :=
  List.replicate (k - l.length) '0' ++ l

/-! ## Model of Python `float(s)`

`float` strips surrounding whitespace, then accepts an optional sign
followed by either one of the special spellings `inf`/`infinity`/`nan`
(case-insensitive, producing the IEEE special values) or a decimal
literal: digits with an optional decimal point and an optional decimal
exponent, where a single underscore may separate two digits (PEP 515).
Finite values are carried as exact rationals (binary rounding is outside
the embedding); the special spellings produce the non-finite `PyFloat`
values.  The decimal core is built first (`parseUnsigned`/`parseSigned`),
then the sign/special/underscore layers (`pyFloat`), and `parseFloat` is
`float()` restricted to finite results. -/

/-- Parse the exponent part after `e`/`E`: optional sign, then digits. -/
def parseExpPart (l : List Char) : Option Int :=
  match l with
  | '-' :: r =>
    if r ≠ [] ∧ r.all Char.isDigit then some (-(digitsValList r : Int)) else none
  | '+' :: r =>
    if r ≠ [] ∧ r.all Char.isDigit then some ((digitsValList r : Int)) else none
  | r =>
    if r ≠ [] ∧ r.all Char.isDigit then some ((digitsValList r : Int)) else none

/-- Value of an integer part together with a fractional digit part. -/
def decValue (ip fp : List Char) : ℚ :=
  (digitsValList ip : ℚ) + (digitsValList fp : ℚ) / 10 ^ fp.length

/-- Continuation of `parseUnsigned` after the fractional digits: `ip` and
`fp` are the integer and fraction digit runs, `r3` the remaining input. -/
def parseFrac (ip fp r3 : List Char) : Option ℚ :=
  if ip = [] ∧ fp = [] then none
  else
    match r3 with
    | [] => some (decValue ip fp)
    | 'e' :: r4 => (parseExpPart r4).map (fun e => decValue ip fp * (10 : ℚ) ^ e)
    | 'E' :: r4 => (parseExpPart r4).map (fun e => decValue ip fp * (10 : ℚ) ^ e)
    | _ => none

/-- Continuation of `parseUnsigned` after the integer digit run `ip`;
`r1` is the remaining input. -/
def parseAfterInt (ip r1 : List Char) : Option ℚ :=
  match r1 with
  | [] => if ip = [] then none else some ((digitsValList ip : ℚ))
  | '.' :: r2 => parseFrac ip (r2.takeWhile Char.isDigit) (r2.dropWhile Char.isDigit)
  | 'e' :: r4 =>
    if ip = [] then none
    else (parseExpPart r4).map (fun e => (digitsValList ip : ℚ) * (10 : ℚ) ^ e)
  | 'E' :: r4 =>
    if ip = [] then none
    else (parseExpPart r4).map (fun e => (digitsValList ip : ℚ) * (10 : ℚ) ^ e)
  | _ => none

/-- Unsigned decimal literal. -/
def parseUnsigned (l : List Char) : Option ℚ :=
  parseAfterInt (l.takeWhile Char.isDigit) (l.dropWhile Char.isDigit)

/-- Optionally signed decimal literal. -/
def parseSigned (l : List Char) : Option ℚ :=
  if l.head? = some '-' then (parseUnsigned l.tail).map (fun q => -q)
  else if l.head? = some '+' then parseUnsigned l.tail
  else parseUnsigned l

/-- An IEEE float value as produced by Python `float()`: a finite value
(an exact rational in this embedding), a signed infinity, or nan. -/
inductive PyFloat where
  | finite (q : ℚ)
  | pinf
  | ninf
  | nan
  deriving DecidableEq

/-- Python `<` on floats: nan is incomparable (every comparison with it is
false), the infinities bound everything else. -/
def PyFloat.ltb : PyFloat → PyFloat → Bool
  | .nan, _ => false
  | _, .nan => false
  | .finite a, .finite b => decide (a < b)
  | .finite _, .pinf => true
  | .finite _, .ninf => false
  | .pinf, _ => false
  | .ninf, .ninf => false
  | .ninf, _ => true

/-- Python `<=` on floats (nan incomparable). -/
def PyFloat.leb : PyFloat → PyFloat → Bool
  | .nan, _ => false
  | _, .nan => false
  | .finite a, .finite b => decide (a ≤ b)
  | .finite _, .pinf => true
  | .finite _, .ninf => false
  | .pinf, .pinf => true
  | .pinf, _ => false
  | .ninf, _ => true

/-- IEEE multiplication on the embedding: nan propagates, zero times an
infinity is nan, otherwise infinities keep the product's sign.  (Signed
zero is identified with `0`, and overflow of finite products is outside
the embedding, consistently with exact finite arithmetic.) -/
def PyFloat.mul : PyFloat → PyFloat → PyFloat
  | .nan, _ => .nan
  | _, .nan => .nan
  | .finite a, .finite b => .finite (a * b)
  | .finite a, .pinf => if a = 0 then .nan else if 0 < a then .pinf else .ninf
  | .finite a, .ninf => if a = 0 then .nan else if 0 < a then .ninf else .pinf
  | .pinf, .finite b => if b = 0 then .nan else if 0 < b then .pinf else .ninf
  | .ninf, .finite b => if b = 0 then .nan else if 0 < b then .ninf else .pinf
  | .pinf, .pinf => .pinf
  | .pinf, .ninf => .ninf
  | .ninf, .pinf => .ninf
  | .ninf, .ninf => .pinf

/-- IEEE subtraction on the embedding: nan propagates and
`inf - inf = nan`. -/
def PyFloat.sub : PyFloat → PyFloat → PyFloat
  | .nan, _ => .nan
  | _, .nan => .nan
  | .finite a, .finite b => .finite (a - b)
  | .finite _, .pinf => .ninf
  | .finite _, .ninf => .pinf
  | .pinf, .pinf => .nan
  | .pinf, _ => .pinf
  | .ninf, .ninf => .nan
  | .ninf, _ => .ninf

/-- Underscore placement check of PEP 515 after the first character:
every `_` must be immediately preceded and followed by a digit.  `prev`
is the character before the current position. -/
def underscoresOKGo (prev : Char) : List Char → Bool
  | [] => true
  | c :: rest =>
    if c = '_' then
      prev.isDigit &&
        (match rest with
         | [] => false
         | d :: _ => d.isDigit) &&
        underscoresOKGo c rest
    else underscoresOKGo c rest

/-- Underscore placement check of PEP 515: every `_` sits between two
digits (a leading `_` fails because the seed `prev` is not a digit). -/
def underscoresOK (l : List Char) : Bool := underscoresOKGo ' ' l

/-- Remove the underscore digit separators before parsing the digits. -/
def stripUnderscores (l : List Char) : List Char := l.filter (fun c => c != '_')

/-- The spelling `inf`. -/
def infChars : List Char := ['i', 'n', 'f']

/-- The spelling `infinity`. -/
def infinityChars : List Char := ['i', 'n', 'f', 'i', 'n', 'i', 't', 'y']

/-- The spelling `nan`. -/
def nanChars : List Char := ['n', 'a', 'n']

/-- The special IEEE spellings accepted by `float()` after the optional
sign: `inf`/`infinity` (the sign applies) and `nan` (the sign is
irrelevant), case-insensitively. -/
def specialFloat (neg : Bool) (body : List Char) : Option PyFloat :=
  let low := body.map Char.toLower
  if low = infChars ∨ low = infinityChars then
    some (if neg then PyFloat.ninf else PyFloat.pinf)
  else if low = nanChars then some PyFloat.nan
  else none

/-- The part of `float()` after the optional sign: a special spelling, or
an underscore-separated decimal literal. -/
def pyFloatBody (neg : Bool) (body : List Char) : Option PyFloat :=
  match specialFloat neg body with
  | some v => some v
  | none =>
    if underscoresOK body then
      match parseUnsigned (stripUnderscores body) with
      | some q => some (PyFloat.finite (if neg then -q else q))
      | none => none
    else none

/-- Model of Python `float(s)`: strip surrounding whitespace, take one
optional sign, then the special spellings or a decimal literal. -/
def pyFloat (s : String) : Option PyFloat :=
  if (trimList s.data).head? = some '-' then pyFloatBody true (trimList s.data).tail
  else if (trimList s.data).head? = some '+' then pyFloatBody false (trimList s.data).tail
  else pyFloatBody false (trimList s.data)

/-- Python `float(s)` restricted to finite results: `some q` exactly when
`float(s)` succeeds with the finite value `q`.  The report-scan records
are embedded over finite numeric fields, so the scanner uses this
restriction (a stored field spelling an IEEE special value is outside the
scan embedding). -/
def parseFloat (s : String) : Option ℚ :=
  match pyFloat s with
  | some (PyFloat.finite q) => some q
  | _ => none

/-! ## Model of Python float formatting (`f"{x}"`)

For a float whose value has a finite decimal expansion, Python prints the
exact shortest decimal, always with at least one fractional digit
(`40.0`, `0.5`, `-1.25`).  `floatRepr` reproduces that for rationals whose
denominator divides a power of ten; every numeric value the program
manipulates is of that form, being the result of decimal parsing. -/

/-- Multiplicity of a factor `p ≥ 2` in `n` (fuel-driven). -/
def countFactorAux (p : Nat) : Nat → Nat → Nat
  | 0, _ => 0
  | fuel + 1, n =>
    if 1 < p ∧ n % p = 0 ∧ 0 < n then countFactorAux p fuel (n / p) + 1 else 0

/-- Multiplicity of the factor `p` in `n`. -/
def countFactor (p n : Nat) : Nat := countFactorAux p n n

/-- Number of decimal digits needed after the point for `q`. -/
def decExp (q : ℚ) : Nat := max (countFactor 2 q.den) (countFactor 5 q.den)

/-- Exact decimal rendering of a rational with decimal denominator, in
Python float `repr` style (at least one fractional digit). -/
def floatRepr (q : ℚ) : String :=
  let k := decExp q
  let N := (q * (10 : ℚ) ^ k).num.natAbs
  let ip := N / 10 ^ k
  let fp := N % 10 ^ k
  let fracChars := if k = 0 then ['0'] else padZeros k (natToChars fp)
  ⟨(if q < 0 then ['-'] else []) ++ natToChars ip ++ '.' :: fracChars⟩

/-- A rational with a finite decimal expansion: its denominator divides a
power of ten.  Every value produced by `parseFloat` is of this form. -/
def IsDecimal (q : ℚ) : Prop := ∃ m : Nat, q.den ∣ 10 ^ m

/-- Python `str()`/f-string formatting of a float value: finite values
print their exact decimal; the special values print their spellings. -/
def floatReprF : PyFloat → String
  | .finite q => floatRepr q
  | .pinf => "inf"
  | .ninf => "-inf"
  | .nan => "nan"

/-! ## Date validation

Model of `datetime.strptime(s, "%m/%d/%Y")` succeeding: CPython's
`_strptime` matches `%m` and `%d` against one or two digits, `%Y` against
exactly four digits, requires the whole string to match, and then
`datetime(year, month, day)` enforces calendar validity with `year ≥ 1`. -/

/-- Gregorian leap year test. -/
def leapYear (y : Nat) : Bool := y % 4 = 0 && (y % 100 != 0 || y % 400 = 0)

/-- Days in a month of a given year. -/
def daysInMonth (m y : Nat) : Nat :=
  if m = 2 then (if leapYear y then 29 else 28)
  else if m = 4 ∨ m = 6 ∨ m = 9 ∨ m = 11 then 30
  else 31

/-- Calendar validity as enforced by `datetime(year, month, day)`. -/
def validDate (m d y : Nat) : Bool :=
  decide (1 ≤ m ∧ m ≤ 12 ∧ 1 ≤ y ∧ y ≤ 9999 ∧ 1 ≤ d ∧ d ≤ daysInMonth m y)

/-- A run of decimal digits with length between `lo` and `hi`. -/
def digitsLen (lo hi : Nat) (f : String) : Bool :=
  f.data.all Char.isDigit && decide (lo ≤ f.data.length ∧ f.data.length ≤ hi)

/-- Numeric value of an all-digit field. -/
def strToNat (f : String) : Nat := digitsValList f.data

/-- Whether `datetime.strptime(s, "%m/%d/%Y")` succeeds on `s`. -/
def valid_mdY (s : String) : Bool :=
  match pySplit '/' s with
  | [m, d, y] =>
    digitsLen 1 2 m && digitsLen 1 2 d && digitsLen 4 4 y &&
      validDate (strToNat m) (strToNat d) (strToNat y)
  | _ => false

/-- Translation of `calculate_pay(hours, rate, tax_rate)` on finite
values (as reached from the report scan, whose records are embedded over
finite fields). -/
def calculate_pay (hours rate tax_rate : ℚ) : ℚ × ℚ × ℚ :=
  let gross := hours * rate
  let tax := gross * tax_rate
  let net := gross - tax
  (gross, tax, net)

/-- Translation of `calculate_pay` as reached from the entry readers,
where hours and rate may be the non-finite values the readers accept; the
tax rate returned by `input_tax_rate` is always finite. -/
def calculate_payF (hours rate : PyFloat) (tax_rate : ℚ) : PyFloat × PyFloat × PyFloat :=
  let gross := hours.mul rate
  let tax := gross.mul (PyFloat.finite tax_rate)
  let net := gross.sub tax
  (gross, tax, net)

/-- The in-memory record dictionary built by the program. -/
structure PayRecord where
  from_date : String
  to_date : String
  name : String
  hours : ℚ
  rate : ℚ
  tax_rate : ℚ
  gross : ℚ
  tax : ℚ
  net : ℚ
  deriving DecidableEq

/-- The pipe-delimited line written by `write_record_to_file`:
`from_date|to_date|name|hours|rate|tax_rate_percent`. -/
def record_line (r : PayRecord) : String :=
  r.from_date ++ "|" ++ r.to_date ++ "|" ++ r.name ++ "|" ++
    floatRepr r.hours ++ "|" ++ floatRepr r.rate ++ "|" ++ floatRepr (r.tax_rate * 100)

/-- Translation of `write_record_to_file`: append one line to the data
file.  (Directory creation and file handles are operating-system glue.) -/
def write_record_to_file (r : PayRecord) (file : List String) : List String :=
  file ++ [record_line r]

/-- The in-memory record dictionary as built by the entry menu, where the
hours, rate and derived pay values are floats that may be non-finite (the
hours/rate readers have no finiteness check); the tax-rate fraction from
the tax reader is always finite.  `PayRecord` is this record restricted
to finite values, as the report scan reconstructs it. -/
structure PayRecordF where
  from_date : String
  to_date : String
  name : String
  hours : PyFloat
  rate : PyFloat
  tax_rate : ℚ
  gross : PyFloat
  tax : PyFloat
  net : PyFloat
  deriving DecidableEq

/-- The pipe-delimited line written for an entry-menu record. -/
def record_lineF (r : PayRecordF) : String :=
  r.from_date ++ "|" ++ r.to_date ++ "|" ++ r.name ++ "|" ++
    floatReprF r.hours ++ "|" ++ floatReprF r.rate ++ "|" ++ floatRepr (r.tax_rate * 100)

/-- `write_record_to_file` for an entry-menu record. -/
def write_recordF_to_file (r : PayRecordF) (file : List String) : List String :=
  file ++ [record_lineF r]

/-! ## Report scanning -/

/-- The totals dictionary of the report loop. -/
structure Totals where
  count : Nat
  total_hours : ℚ
  total_gross : ℚ
  total_tax : ℚ
  total_net : ℚ
  deriving DecidableEq

/-- Update the totals with one matched record, as the loop body does. -/
def Totals.addRec (t : Totals) (r : PayRecord) : Totals :=
  ⟨t.count + 1, t.total_hours + r.hours, t.total_gross + r.gross,
    t.total_tax + r.tax, t.total_net + r.net⟩

/-- State of the report scan: matched records in file order, running
totals, and the skipped malformed lines (1-based line number and stripped
content, standing in for the printed skip messages). -/
structure ScanState where
  matched : List PayRecord
  totals : Totals
  skipped : List (Nat × String)
  deriving DecidableEq

/-- The scan state before any line is read. -/
def emptyScan : ScanState := ⟨[], ⟨0, 0, 0, 0, 0⟩, []⟩

/-- Append a matched record (and update totals), as the loop body does. -/
def ScanState.addMatch (st : ScanState) (r : PayRecord) : ScanState :=
  ⟨st.matched ++ [r], st.totals.addRec r, st.skipped⟩

/-- Record a skipped malformed line. -/
def ScanState.addSkip (st : ScanState) (n : Nat) (line : String) : ScanState :=
  ⟨st.matched, st.totals, st.skipped ++ [(n, line)]⟩

/-- Pointwise sum of totals, for stating how the scan accumulates. -/
def Totals.add (t u : Totals) : Totals :=
  ⟨t.count + u.count, t.total_hours + u.total_hours, t.total_gross + u.total_gross,
    t.total_tax + u.total_tax, t.total_net + u.total_net⟩

/-- Concatenation of scan states: matched and skipped lists append in
order, totals add. -/
def ScanState.app (s t : ScanState) : ScanState :=
  ⟨s.matched ++ t.matched, s.totals.add t.totals, s.skipped ++ t.skipped⟩

/-- One iteration of the report file loop in `run_report_from_file`, for
the line at 1-based number `n`. -/
def scan_step (requested : String) (n : Nat) (st : ScanState) (l0 : String) : ScanState :=
  let line := pyStrip l0
  if line = "" then st
  else
    match pySplit '|' line with
    | [fd, td, nm, hs, rs, ts] =>
      if requested ≠ "All" ∧ fd ≠ requested then st
      else
        match parseFloat hs, parseFloat rs, parseFloat ts with
        | some hv, some rv, some tp =>
          let tax_rate := tp / 100
          let (gross, tax, net) := calculate_pay hv rv tax_rate
          st.addMatch ⟨fd, td, nm, hv, rv, tax_rate, gross, tax, net⟩
        | _, _, _ => st.addSkip n line
    | _ => st.addSkip n line

/-- The report file loop, starting at line number `n` with state `st`. -/
def scan_linesAux (requested : String) : Nat → ScanState → List String → ScanState
  | _, st, [] => st
  | n, st, l0 :: rest => scan_linesAux requested (n + 1) (scan_step requested n st l0) rest

/-- The full report scan of a file's lines (line numbers start at 1). -/
def scan_lines (requested : String) (lines : List String) : ScanState :=
  scan_linesAux requested 1 emptyScan lines

/-- Well-formedness view of one stored line, used to state the matching
claims: `some r` exactly when the scan would parse the line, with the
derived pay recomputed by `calculate_pay`. -/
def parse_line (l0 : String) : Option PayRecord :=
  let line := pyStrip l0
  if line = "" then none
  else
    match pySplit '|' line with
    | [fd, td, nm, hs, rs, ts] =>
      match parseFloat hs, parseFloat rs, parseFloat ts with
      | some hv, some rv, some tp =>
        let tax_rate := tp / 100
        let (gross, tax, net) := calculate_pay hv rv tax_rate
        some ⟨fd, td, nm, hv, rv, tax_rate, gross, tax, net⟩
      | _, _, _ => none
    | _ => none

/-! ## Interactive readers

Each reader consumes lines from the operator-input script.  The loops are
driven by a fuel argument so that they are structurally recursive; the top
level entry points supply `inputs.length` as fuel, which is sufficient
because every loop iteration consumes at least one input line, and an
exhausted script yields `exhausted` either way. -/

/-- Result of a reader: a value with the remaining script, a confirmed
quit request (`QuitRequested` propagating), or an exhausted script. -/
inductive ReadRes (α : Type) where
  | ok (v : α) (rest : List String)
  | quit (rest : List String)
  | exhausted
  deriving DecidableEq

/-- Result of `check_for_end_and_confirm`. -/
inductive GateResult where
  | quitConfirmed (rest : List String)
  | endCancelled (rest : List String)
  | notEnd
  | exhaustedG
  deriving DecidableEq

/-- Translation of `prompt_yes_no`: loop until a `y`/`yes`/`n`/`no`
answer (case-insensitive, stripped). -/
def prompt_yes_no : List String → Option (Bool × List String)
  | [] => none
  | a :: rest =>
    let ans := pyLower (pyStrip a)
    if ans = "y" ∨ ans = "yes" then some (true, rest)
    else if ans = "n" ∨ ans = "no" then some (false, rest)
    else prompt_yes_no rest

/-- Translation of `check_for_end_and_confirm`: on the reserved token
`End` (case-insensitive, stripped) ask for confirmation; a confirmed
quit raises `QuitRequested`, a declined one reports the token was
cancelled; other inputs are a no-op. -/
def check_for_end_and_confirm (s : String) (inputs : List String) : GateResult :=
  if pyLower (pyStrip s) = "end" then
    match prompt_yes_no inputs with
    | none => .exhaustedG
    | some (true, r) => .quitConfirmed r
    | some (false, r) => .endCancelled r
  else .notEnd

/-- Common loop shape of the validated input readers: strip the input,
re-prompt on blank, consult `special` (the `All` shortcut of the date
reader), then the cancellation gate, then the field-specific
`validate`; invalid input re-prompts. -/
def readLoopAux {α : Type} (special validate : String → Option α) :
    Nat → List String → ReadRes α
  | 0, _ => .exhausted
  | _ + 1, [] => .exhausted
  | fuel + 1, s0 :: rest =>
    let s := pyStrip s0
    if s = "" then readLoopAux special validate fuel rest
    else
      match special s with
      | some v => .ok v rest
      | none =>
        match check_for_end_and_confirm s rest with
        | .exhaustedG => .exhausted
        | .quitConfirmed r => .quit r
        | .endCancelled r => readLoopAux special validate fuel r
        | .notEnd =>
          match validate s with
          | some v => .ok v rest
          | none => readLoopAux special validate fuel rest

/-- The `All` shortcut of `read_date` (active only when `allow_all`). -/
def dateSpecial (allow_all : Bool) (s : String) : Option String :=
  if allow_all ∧ pyLower s = "all" then some "All" else none

/-- Date validation of `read_date`: the accepted string is returned as
entered (after stripping). -/
def dateValidate (s : String) : Option String :=
  if valid_mdY s then some s else none

/-- Translation of `read_date`. -/
def read_date (allow_all : Bool) (inputs : List String) : ReadRes String :=
  readLoopAux (dateSpecial allow_all) dateValidate inputs.length inputs

/-- Translation of `input_name`: any non-blank stripped text. -/
def input_name (inputs : List String) : ReadRes String :=
  readLoopAux (fun _ => none) (fun s => some s) inputs.length inputs

/-- Hours validation: `float(s)`, then `if hours < 0` rejects.  The IEEE
comparison rejects `-inf` and negative finite values, while `inf` and
`nan` compare not-below-zero and are accepted: the code has no
finiteness check. -/
def hoursValidate (s : String) : Option PyFloat :=
  match pyFloat s with
  | none => none
  | some h => if PyFloat.ltb h (PyFloat.finite 0) then none else some h

/-- Translation of `input_hours`. -/
def input_hours (inputs : List String) : ReadRes PyFloat :=
  readLoopAux (fun _ => none) hoursValidate inputs.length inputs

/-- Rate validation: `float(s)`, then `if rate < 0` rejects — like the
hours, `inf` and `nan` pass. -/
def rateValidate (s : String) : Option PyFloat :=
  match pyFloat s with
  | none => none
  | some r => if PyFloat.ltb r (PyFloat.finite 0) then none else some r

/-- Translation of `input_hourly_rate`. -/
def input_hourly_rate (inputs : List String) : ReadRes PyFloat :=
  readLoopAux (fun _ => none) rateValidate inputs.length inputs

/-- Tax validation: `float(s)`, then the chained range check
`0 <= pct <= 100`, then `pct / 100`.  The chained comparison is false for
`nan` (incomparable), for `inf` (not `<= 100`) and for `-inf`, so only
finite percentages pass. -/
def taxValidate (s : String) : Option ℚ :=
  match pyFloat s with
  | some (PyFloat.finite pct) => if 0 ≤ pct ∧ pct ≤ 100 then some (pct / 100) else none
  | _ => none

/-- Translation of `input_tax_rate`. -/
def input_tax_rate (inputs : List String) : ReadRes ℚ :=
  readLoopAux (fun _ => none) taxValidate inputs.length inputs

/-! ## Report runner and entry menu -/

/-- Outcome of `run_report_from_file`: the report date prompt can be
quit-aborted, a missing data file yields the informational no-data path,
and otherwise the file is scanned. -/
inductive ReportResult where
  | exhausted
  | quitAborted (rest : List String)
  | noData (rest : List String)
  | report (result : ScanState) (rest : List String)
  deriving DecidableEq

/-- Translation of `run_report_from_file`: read the requested from-date
(wildcard allowed), then scan the data file if it exists. -/
def run_report_from_file (inputs : List String) (file : Option (List String)) :
    ReportResult :=
  match read_date true inputs with
  | .exhausted => .exhausted
  | .quit r => .quitAborted r
  | .ok requested r =>
    match file with
    | none => .noData r
    | some lines => .report (scan_lines requested lines) r

/-- Outcome of `add_employees_menu`: the session's records with the final
file and remaining script, or a propagating quit request (records already
written stay in the file), or an exhausted script. -/
inductive AddResult where
  | exhausted
  | done (session : List PayRecordF) (file : List String) (rest : List String)
  | quitR (file : List String) (rest : List String)
  deriving DecidableEq

/-- The loop of `add_employees_menu`: one full round of field prompts,
then compute the pay, append the record to the session and the file, and
ask whether to add another employee. -/
def add_employeesAux : Nat → List String → List PayRecordF → List String → AddResult
  | 0, _, _, _ => .exhausted
  | fuel + 1, inputs, session, file =>
    match read_date false inputs with
    | .exhausted => .exhausted
    | .quit r => .quitR file r
    | .ok from_date r1 =>
      match read_date false r1 with
      | .exhausted => .exhausted
      | .quit r => .quitR file r
      | .ok to_date r2 =>
        match input_name r2 with
        | .exhausted => .exhausted
        | .quit r => .quitR file r
        | .ok name r3 =>
          match input_hours r3 with
          | .exhausted => .exhausted
          | .quit r => .quitR file r
          | .ok hours r4 =>
            match input_hourly_rate r4 with
            | .exhausted => .exhausted
            | .quit r => .quitR file r
            | .ok rate r5 =>
              match input_tax_rate r5 with
              | .exhausted => .exhausted
              | .quit r => .quitR file r
              | .ok tax_rate r6 =>
                let (gross, tax, net) := calculate_payF hours rate tax_rate
                let rcd : PayRecordF :=
                  ⟨from_date, to_date, name, hours, rate, tax_rate, gross, tax, net⟩
                let session2 := session ++ [rcd]
                let file2 := write_recordF_to_file rcd file
                match r6 with
                | [] => .exhausted
                | c :: r7 =>
                  if pyLower (pyStrip c) = "y" then add_employeesAux fuel r7 session2 file2
                  else .done session2 file2 r7

/-- Translation of `add_employees_menu`, on a script and a file. -/
def add_employees_menu (inputs : List String) (file : List String) : AddResult :=
  add_employeesAux inputs.length inputs [] file

/-! ## Basic character and list lemmas -/

theorem pyWS_isDigit_false {c : Char} (h : pyWS c = true) : c.isDigit = false := by
  simp only [pyWS, decide_eq_true_eq] at h
  rcases h with h | h | h | h | h | h <;> subst h <;> decide

theorem isDigit_not_ws {c : Char} (h : c.isDigit = true) : pyWS c = false := by
  cases hw : pyWS c with
  | false => rfl
  | true => rw [pyWS_isDigit_false hw] at h; cases h

theorem isDigit_ne_pipe {c : Char} (h : c.isDigit = true) : c ≠ '|' := by
  intro hc; rw [hc] at h; exact absurd h (by decide)

theorem isDigit_ne_slash {c : Char} (h : c.isDigit = true) : c ≠ '/' := by
  intro hc; rw [hc] at h; exact absurd h (by decide)

theorem isDigit_ne_minus {c : Char} (h : c.isDigit = true) : c ≠ '-' := by
  intro hc; rw [hc] at h; exact absurd h (by decide)

theorem isDigit_ne_plus {c : Char} (h : c.isDigit = true) : c ≠ '+' := by
  intro hc; rw [hc] at h; exact absurd h (by decide)

theorem isDigit_ne_dot {c : Char} (h : c.isDigit = true) : c ≠ '.' := by
  intro hc; rw [hc] at h; exact absurd h (by decide)

theorem takeWhile_all {α : Type} {p : α → Bool} {l : List α}
    (h : ∀ c ∈ l, p c = true) : l.takeWhile p = l := by
  induction l with
  | nil => rfl
  | cons c t ih =>
    have hc : p c = true := h c (by simp)
    simp [List.takeWhile_cons, hc, ih (fun d hd => h d (by simp [hd]))]

theorem dropWhile_all {α : Type} {p : α → Bool} {l : List α}
    (h : ∀ c ∈ l, p c = true) : l.dropWhile p = [] := by
  induction l with
  | nil => rfl
  | cons c t ih =>
    have hc : p c = true := h c (by simp)
    simp [List.dropWhile_cons, hc, ih (fun d hd => h d (by simp [hd]))]

theorem takeWhile_append_neg {α : Type} {p : α → Bool} {a : List α} {x : α} (b : List α)
    (ha : ∀ c ∈ a, p c = true) (hx : p x = false) :
    (a ++ x :: b).takeWhile p = a := by
  induction a with
  | nil => simp [List.takeWhile_cons, hx]
  | cons c t ih =>
    have hc : p c = true := ha c (by simp)
    simp [List.takeWhile_cons, hc]
    exact ih (fun d hd => ha d (by simp [hd]))

theorem dropWhile_append_neg {α : Type} {p : α → Bool} {a : List α} {x : α} (b : List α)
    (ha : ∀ c ∈ a, p c = true) (hx : p x = false) :
    (a ++ x :: b).dropWhile p = x :: b := by
  induction a with
  | nil => simp [List.dropWhile_cons, hx]
  | cons c t ih =>
    have hc : p c = true := ha c (by simp)
    simp [List.dropWhile_cons, hc]
    exact ih (fun d hd => ha d (by simp [hd]))

theorem dropWhile_head_neg {α : Type} {p : α → Bool} {l : List α}
    (h : ∀ c, l.head? = some c → p c = false) : l.dropWhile p = l := by
  cases l with
  | nil => rfl
  | cons c t => simp [List.dropWhile_cons, h c rfl]

theorem head_dropWhile_false {α : Type} {p : α → Bool} {l : List α} {c : α}
    (h : (l.dropWhile p).head? = some c) : p c = false := by
  induction l with
  | nil => cases h
  | cons x t ih =>
    by_cases hx : p x = true
    · rw [List.dropWhile_cons_of_pos hx] at h; exact ih h
    · rw [List.dropWhile_cons_of_neg hx] at h
      simp at h
      rw [← h]
      exact Bool.eq_false_iff.mpr hx

theorem head?_append_left {α : Type} {a : List α} (b : List α) (h : a ≠ []) :
    (a ++ b).head? = a.head? := by
  cases a with
  | nil => exact absurd rfl h
  | cons c t => rfl

theorem getLast?_append_right {α : Type} (a : List α) {b : List α} (h : b ≠ []) :
    (a ++ b).getLast? = b.getLast? := by
  rw [← List.head?_reverse, ← List.head?_reverse, List.reverse_append]
  exact head?_append_left _ (by simpa using h)

/-! ## Stripping lemmas -/

theorem trimList_eq_self {l : List Char}
    (h1 : ∀ c, l.head? = some c → pyWS c = false)
    (h2 : ∀ c, l.getLast? = some c → pyWS c = false) : trimList l = l := by
  unfold trimList
  rw [dropWhile_head_neg h1]
  rw [dropWhile_head_neg (fun c hc => h2 c (by rwa [List.head?_reverse] at hc))]
  exact List.reverse_reverse l

theorem exists_dropWhile_prefix {α : Type} (p : α → Bool) (l : List α) :
    ∃ pre, pre ++ l.dropWhile p = l := by
  induction l with
  | nil => exact ⟨[], rfl⟩
  | cons x t ih =>
    by_cases hx : p x = true
    · obtain ⟨pre, hp⟩ := ih
      exact ⟨x :: pre, by simp [List.dropWhile_cons_of_pos hx, hp]⟩
    · exact ⟨[], by simp [List.dropWhile_cons_of_neg hx]⟩

theorem trimList_head {l : List Char} {c : Char}
    (h : (trimList l).head? = some c) : pyWS c = false := by
  unfold trimList at h
  rw [List.head?_reverse] at h
  have hne : List.dropWhile pyWS (List.dropWhile pyWS l).reverse ≠ [] := by
    intro he; rw [he] at h; cases h
  obtain ⟨pre, hp⟩ := exists_dropWhile_prefix pyWS (List.dropWhile pyWS l).reverse
  have h2 : ((List.dropWhile pyWS l).reverse).getLast? = some c := by
    rw [← hp, getLast?_append_right _ hne]; exact h
  rw [List.getLast?_reverse] at h2
  exact head_dropWhile_false h2

theorem trimList_getLast {l : List Char} {c : Char}
    (h : (trimList l).getLast? = some c) : pyWS c = false := by
  unfold trimList at h
  rw [← List.head?_reverse, List.reverse_reverse] at h
  exact head_dropWhile_false h

theorem trimList_idem (l : List Char) : trimList (trimList l) = trimList l :=
  trimList_eq_self (fun _ h => trimList_head h) (fun _ h => trimList_getLast h)

theorem pyStrip_data (s : String) : (pyStrip s).data = trimList s.data := rfl

theorem pyStrip_idem (s : String) : pyStrip (pyStrip s) = pyStrip s :=
  congrArg String.mk (trimList_idem s.data)

theorem pyStrip_eq_self {s : String}
    (h1 : ∀ c, s.data.head? = some c → pyWS c = false)
    (h2 : ∀ c, s.data.getLast? = some c → pyWS c = false) : pyStrip s = s := by
  unfold pyStrip
  rw [trimList_eq_self h1 h2]

theorem sdata_append (a b : String) : (a ++ b).data = a.data ++ b.data := rfl

/-! ## Split and join lemmas -/

theorem splitC_ne_nil (c : Char) (l : List Char) : splitC c l ≠ [] := by
  cases l with
  | nil => simp [splitC]
  | cons x xs =>
    simp only [splitC]
    by_cases hx : x = c
    · simp [hx]
    · simp only [if_neg hx]
      cases splitC c xs with
      | nil => simp
      | cons y ys => simp

theorem splitC_no_sep {c : Char} {l : List Char} (h : ∀ x ∈ l, x ≠ c) :
    splitC c l = [l] := by
  induction l with
  | nil => rfl
  | cons x xs ih =>
    have hx : x ≠ c := h x (by simp)
    simp only [splitC, if_neg hx]
    rw [ih (fun y hy => h y (by simp [hy]))]

theorem splitC_append_sep (c : Char) (a b : List Char) :
    splitC c (a ++ c :: b) = splitC c a ++ splitC c b := by
  induction a with
  | nil => simp [splitC]
  | cons x xs ih =>
    by_cases hx : x = c
    · simp only [List.cons_append, splitC, List.append_eq, if_pos hx, ih]
    · simp only [List.cons_append, splitC, List.append_eq, if_neg hx]
      rw [ih]
      cases hs : splitC c xs with
      | nil => exact absurd hs (splitC_ne_nil c xs)
      | cons y ys => simp

theorem joinC_splitC (c : Char) (l : List Char) : joinC c (splitC c l) = l := by
  induction l with
  | nil => rfl
  | cons x xs ih =>
    by_cases hx : x = c
    · simp only [splitC, if_pos hx]
      cases hs : splitC c xs with
      | nil => exact absurd hs (splitC_ne_nil c xs)
      | cons y ys =>
        rw [hs] at ih
        simp [joinC, ih, hx]
    · simp only [splitC, if_neg hx]
      cases hs : splitC c xs with
      | nil => exact absurd hs (splitC_ne_nil c xs)
      | cons y ys =>
        rw [hs] at ih
        cases ys with
        | nil => simp [joinC] at ih ⊢; rw [ih]
        | cons z zs => simp [joinC] at ih ⊢; rw [ih]

/-! ## Digit rendering lemmas -/

theorem isDigit_digitChar {d : Nat} (h : d < 10) : (digitChar d).isDigit = true := by
  interval_cases d <;> decide

theorem digitVal_digitChar {d : Nat} (h : d < 10) : digitVal (digitChar d) = d := by
  interval_cases d <;> decide

theorem toDigitsRevAux_lt {fuel n : Nat} :
    ∀ d ∈ toDigitsRevAux fuel n, d < 10 := by
  induction fuel generalizing n with
  | zero => intro d hd; cases hd
  | succ fuel ih =>
    intro d hd
    by_cases hn : n = 0
    · simp [toDigitsRevAux, hn] at hd
    · simp only [toDigitsRevAux, if_neg hn, List.mem_cons] at hd
      rcases hd with hd | hd
      · subst hd; exact Nat.mod_lt n (by omega)
      · exact ih d hd

theorem digitsValRev_toDigitsRevAux {fuel n : Nat} (h : n ≤ fuel) :
    digitsValRev (toDigitsRevAux fuel n) = n := by
  induction fuel generalizing n with
  | zero => interval_cases n; rfl
  | succ fuel ih =>
    by_cases hn : n = 0
    · simp [toDigitsRevAux, hn, digitsValRev]
    · simp only [toDigitsRevAux, if_neg hn, digitsValRev, List.foldr_cons]
      have hdiv : n / 10 ≤ fuel := by omega
      have := ih hdiv
      unfold digitsValRev at this
      rw [this]
      omega

theorem digitsValList_append (a b : List Char) :
    digitsValList (a ++ b) =
      b.foldl (fun x c => 10 * x + digitVal c) (digitsValList a) := by
  unfold digitsValList
  rw [List.foldl_append]

theorem digitsValList_reverse_map {ds : List Nat} (h : ∀ d ∈ ds, d < 10) :
    digitsValList ((ds.map digitChar).reverse) = digitsValRev ds := by
  induction ds with
  | nil => rfl
  | cons d t ih =>
    have hd : d < 10 := h d (by simp)
    simp only [List.map_cons, List.reverse_cons]
    rw [digitsValList_append]
    simp only [List.foldl_cons, List.foldl_nil]
    rw [ih (fun x hx => h x (by simp [hx]))]
    simp only [digitsValRev, List.foldr_cons]
    rw [digitVal_digitChar hd]
    omega

theorem natToChars_val (n : Nat) : digitsValList (natToChars n) = n := by
  by_cases hn : n = 0
  · subst hn; rfl
  · unfold natToChars
    rw [if_neg hn]
    rw [digitsValList_reverse_map (fun d hd => toDigitsRevAux_lt d hd)]
    exact digitsValRev_toDigitsRevAux (Nat.le_refl n)

theorem natToChars_digits {n : Nat} : ∀ c ∈ natToChars n, c.isDigit = true := by
  intro c hc
  unfold natToChars at hc
  by_cases hn : n = 0
  · rw [if_pos hn] at hc; simp at hc; subst hc; decide
  · rw [if_neg hn] at hc
    rw [List.mem_reverse, List.mem_map] at hc
    obtain ⟨d, hd, hdc⟩ := hc
    rw [← hdc]
    exact isDigit_digitChar (toDigitsRevAux_lt d hd)

theorem natToChars_ne_nil (n : Nat) : natToChars n ≠ [] := by
  intro h
  have hv := natToChars_val n
  rw [h] at hv
  subst hv
  exact absurd h (by decide)

theorem toDigitsRevAux_len {fuel n k : Nat} (hf : n ≤ fuel) (h : n < 10 ^ k) :
    (toDigitsRevAux fuel n).length ≤ k := by
  induction fuel generalizing n k with
  | zero => interval_cases n; simp [toDigitsRevAux]
  | succ fuel ih =>
    by_cases hn : n = 0
    · simp [toDigitsRevAux, hn]
    · have hk : k ≠ 0 := by
        intro hk0; rw [hk0] at h; simp at h; omega
      simp only [toDigitsRevAux, if_neg hn, List.length_cons]
      have h1 : n / 10 < 10 ^ (k - 1) := by
        rw [Nat.div_lt_iff_lt_mul (by omega)]
        calc n < 10 ^ k := h
        _ = 10 ^ (k - 1) * 10 := by
              rw [← Nat.pow_succ]
              congr 1
              omega
      have h2 : n / 10 ≤ fuel := by omega
      have := ih h2 h1
      omega

theorem natToChars_len {n k : Nat} (hk : 0 < k) (h : n < 10 ^ k) :
    (natToChars n).length ≤ k := by
  unfold natToChars
  by_cases hn : n = 0
  · simp [hn]; omega
  · rw [if_neg hn]
    simp only [List.length_reverse, List.length_map]
    exact toDigitsRevAux_len (Nat.le_refl n) h

theorem padZeros_digits {k : Nat} {l : List Char} (h : ∀ c ∈ l, c.isDigit = true) :
    ∀ c ∈ padZeros k l, c.isDigit = true := by
  intro c hc
  unfold padZeros at hc
  rw [List.mem_append] at hc
  rcases hc with hc | hc
  · rw [List.eq_of_mem_replicate hc]; decide
  · exact h c hc

theorem padZeros_length {k : Nat} {l : List Char} (h : l.length ≤ k) :
    (padZeros k l).length = k := by
  unfold padZeros
  rw [List.length_append, List.length_replicate]
  omega

theorem digitsValList_replicate_zero (j : Nat) (l : List Char) :
    digitsValList (List.replicate j '0' ++ l) = digitsValList l := by
  induction j with
  | zero => rfl
  | succ j ih =>
    rw [List.replicate_succ]
    simpa [digitsValList] using ih

theorem padZeros_val (k : Nat) (l : List Char) :
    digitsValList (padZeros k l) = digitsValList l :=
  digitsValList_replicate_zero _ _

/-! ## Factor counting and decimal denominators -/

theorem countFactorAux_spec {p : Nat} (hp : 1 < p) :
    ∀ fuel n, 0 < n → n ≤ fuel →
      p ^ countFactorAux p fuel n ∣ n ∧ ¬ p ^ (countFactorAux p fuel n + 1) ∣ n := by
  intro fuel
  induction fuel with
  | zero => intro n hn hf; exact absurd hf (by omega)
  | succ fuel ih =>
    intro n hn hf
    by_cases hdvd : n % p = 0
    · have hcond : 1 < p ∧ n % p = 0 ∧ 0 < n := ⟨hp, hdvd, hn⟩
      simp only [countFactorAux, if_pos hcond]
      have hpd : p ∣ n := Nat.dvd_of_mod_eq_zero hdvd
      have hq : 0 < n / p := Nat.div_pos (Nat.le_of_dvd hn hpd) (by omega)
      have hqf : n / p ≤ fuel := by
        have : n / p < n := Nat.div_lt_self hn hp
        omega
      obtain ⟨h1, h2⟩ := ih (n / p) hq hqf
      constructor
      · have hm : p * p ^ countFactorAux p fuel (n / p) ∣ p * (n / p) :=
          mul_dvd_mul_left p h1
        rw [← pow_succ'] at hm
        rwa [Nat.mul_div_cancel' hpd] at hm
      · intro hcon
        apply h2
        set c := countFactorAux p fuel (n / p) with hc
        rw [pow_succ'] at hcon
        rw [← Nat.mul_div_cancel' hpd] at hcon
        exact (Nat.mul_dvd_mul_iff_left (show 0 < p by omega)).mp hcon
    · have hcond : ¬ (1 < p ∧ n % p = 0 ∧ 0 < n) := by
        intro hc; exact hdvd hc.2.1
      simp only [countFactorAux, if_neg hcond]
      refine ⟨by simp, ?_⟩
      intro hcon
      rw [pow_one] at hcon
      obtain ⟨t, rfl⟩ := hcon
      exact hdvd (Nat.mul_mod_right p t)

theorem countFactor_spec {p n : Nat} (hp : 1 < p) (hn : 0 < n) :
    p ^ countFactor p n ∣ n ∧ ¬ p ^ (countFactor p n + 1) ∣ n :=
  countFactorAux_spec hp n n hn (Nat.le_refl n)

theorem le_countFactor {p n e : Nat} (hp : 1 < p) (hn : 0 < n)
    (h : p ^ e ∣ n) : e ≤ countFactor p n := by
  by_contra hlt
  push_neg at hlt
  exact (countFactor_spec hp hn).2
    (dvd_trans (pow_dvd_pow p (by omega)) h)

theorem eq_two_five_pow {n : Nat} (m : Nat) (hn : 0 < n) (h : n ∣ 2 ^ m * 5 ^ m) :
    ∃ a b, n = 2 ^ a * 5 ^ b := by
  induction n using Nat.strong_induction_on with
  | _ n ih =>
    by_cases h2 : 2 ∣ n
    · obtain ⟨t, rfl⟩ := h2
      have htpos : 0 < t := by omega
      have htm : t ∣ 2 ^ m * 5 ^ m := dvd_trans (dvd_mul_left t 2) h
      obtain ⟨a, b, hab⟩ := ih t (by omega) htpos htm
      exact ⟨a + 1, b, by rw [hab, pow_succ]; ring⟩
    · by_cases h5 : 5 ∣ n
      · obtain ⟨t, rfl⟩ := h5
        have htpos : 0 < t := by omega
        have htm : t ∣ 2 ^ m * 5 ^ m := dvd_trans (dvd_mul_left t 5) h
        obtain ⟨a, b, hab⟩ := ih t (by omega) htpos htm
        exact ⟨a, b + 1, by rw [hab, pow_succ]; ring⟩
      · have hcop2 : Nat.Coprime n (2 ^ m) :=
          Nat.Coprime.pow_right m
            (((Nat.Prime.coprime_iff_not_dvd Nat.prime_two).mpr h2).symm)
        have h1 : n ∣ 5 ^ m := hcop2.dvd_of_dvd_mul_left h
        have hcop5 : Nat.Coprime n (5 ^ m) :=
          Nat.Coprime.pow_right m
            (((Nat.Prime.coprime_iff_not_dvd Nat.prime_five).mpr h5).symm)
        have hone : n = 1 := Nat.Coprime.eq_one_of_dvd hcop5 h1
        exact ⟨0, 0, by simp [hone]⟩

theorem dvd_ten_pow_decExp {n m : Nat} (hn : 0 < n) (h : n ∣ 10 ^ m) :
    n ∣ 10 ^ (max (countFactor 2 n) (countFactor 5 n)) := by
  have h10 : (10 : Nat) = 2 * 5 := rfl
  have h2 : n ∣ 2 ^ m * 5 ^ m := by rwa [h10, Nat.mul_pow] at h
  obtain ⟨a, b, hab⟩ := eq_two_five_pow m hn h2
  have ha : a ≤ countFactor 2 n :=
    le_countFactor (p := 2) (by norm_num) hn ⟨5 ^ b, hab⟩
  have hb : b ≤ countFactor 5 n :=
    le_countFactor (p := 5) (by norm_num) hn ⟨2 ^ a, by rw [hab]; ring⟩
  have hk1 : countFactor 2 n ≤ max (countFactor 2 n) (countFactor 5 n) :=
    le_max_left _ _
  have hk2 : countFactor 5 n ≤ max (countFactor 2 n) (countFactor 5 n) :=
    le_max_right _ _
  rw [h10, Nat.mul_pow]
  calc n = 2 ^ a * 5 ^ b := hab
    _ ∣ 2 ^ max (countFactor 2 n) (countFactor 5 n) *
          5 ^ max (countFactor 2 n) (countFactor 5 n) :=
      mul_dvd_mul (pow_dvd_pow 2 (le_trans ha hk1)) (pow_dvd_pow 5 (le_trans hb hk2))

/-! ## Decimal rationals: closure properties -/

theorem isDecimal_natCast (n : ℕ) : IsDecimal ((n : ℚ)) :=
  ⟨0, by rw [Rat.den_natCast]; exact one_dvd _⟩

theorem isDecimal_add {a b : ℚ} (ha : IsDecimal a) (hb : IsDecimal b) :
    IsDecimal (a + b) := by
  obtain ⟨m, hm⟩ := ha
  obtain ⟨n, hn⟩ := hb
  exact ⟨m + n, dvd_trans (Rat.add_den_dvd a b) (by rw [pow_add]; exact mul_dvd_mul hm hn)⟩

theorem isDecimal_mul {a b : ℚ} (ha : IsDecimal a) (hb : IsDecimal b) :
    IsDecimal (a * b) := by
  obtain ⟨m, hm⟩ := ha
  obtain ⟨n, hn⟩ := hb
  exact ⟨m + n, dvd_trans (Rat.mul_den_dvd a b) (by rw [pow_add]; exact mul_dvd_mul hm hn)⟩

theorem isDecimal_neg {a : ℚ} (ha : IsDecimal a) : IsDecimal (-a) := by
  obtain ⟨m, hm⟩ := ha
  exact ⟨m, by rwa [Rat.den_neg_eq_den]⟩

theorem isDecimal_inv_ten_pow (f : ℕ) : IsDecimal (((10 : ℚ) ^ f)⁻¹) := by
  refine ⟨f, ?_⟩
  have hd := Rat.den_dvd 1 ((10 : ℤ) ^ f)
  rw [Rat.divInt_eq_div] at hd
  have he : ((1 : ℤ) : ℚ) / (((10 : ℤ) ^ f : ℤ) : ℚ) = ((10 : ℚ) ^ f)⁻¹ := by
    push_cast
    rw [one_div]
  rw [he] at hd
  have hc : ((10 : ℤ) ^ f) = ((10 ^ f : ℕ) : ℤ) := by push_cast; ring
  rw [hc] at hd
  exact_mod_cast hd

theorem isDecimal_div_ten_pow (n f : ℕ) : IsDecimal ((n : ℚ) / 10 ^ f) := by
  rw [div_eq_mul_inv]
  exact isDecimal_mul (isDecimal_natCast n) (isDecimal_inv_ten_pow f)

theorem isDecimal_decValue (ip fp : List Char) : IsDecimal (decValue ip fp) :=
  isDecimal_add (isDecimal_natCast _) (isDecimal_div_ten_pow _ _)

theorem isDecimal_ten_zpow (e : ℤ) : IsDecimal ((10 : ℚ) ^ e) := by
  cases e with
  | ofNat n =>
    rw [Int.ofNat_eq_coe, zpow_natCast]
    refine ⟨0, ?_⟩
    have : ((10 : ℚ) ^ n) = ((10 ^ n : ℕ) : ℚ) := by push_cast; ring
    rw [this, Rat.den_natCast]
    exact one_dvd _
  | negSucc n =>
    rw [zpow_negSucc]
    exact isDecimal_inv_ten_pow (n + 1)

/-! ## Every parsed float is decimal -/

theorem parseFrac_isDecimal {ip fp r3 : List Char} {q : ℚ}
    (h : parseFrac ip fp r3 = some q) : IsDecimal q := by
  unfold parseFrac at h
  split at h
  · cases h
  · split at h
    · rw [Option.some_inj] at h
      rw [← h]
      exact isDecimal_decValue ip fp
    · rw [Option.map_eq_some'] at h
      obtain ⟨e, _, he⟩ := h
      rw [← he]
      exact isDecimal_mul (isDecimal_decValue ip fp) (isDecimal_ten_zpow e)
    · rw [Option.map_eq_some'] at h
      obtain ⟨e, _, he⟩ := h
      rw [← he]
      exact isDecimal_mul (isDecimal_decValue ip fp) (isDecimal_ten_zpow e)
    · cases h

theorem parseAfterInt_isDecimal {ip r1 : List Char} {q : ℚ}
    (h : parseAfterInt ip r1 = some q) : IsDecimal q := by
  unfold parseAfterInt at h
  split at h
  · split at h
    · cases h
    · rw [Option.some_inj] at h
      rw [← h]
      exact isDecimal_natCast _
  · exact parseFrac_isDecimal h
  · split at h
    · cases h
    · rw [Option.map_eq_some'] at h
      obtain ⟨e, _, he⟩ := h
      rw [← he]
      exact isDecimal_mul (isDecimal_natCast _) (isDecimal_ten_zpow e)
  · split at h
    · cases h
    · rw [Option.map_eq_some'] at h
      obtain ⟨e, _, he⟩ := h
      rw [← he]
      exact isDecimal_mul (isDecimal_natCast _) (isDecimal_ten_zpow e)
  · cases h

theorem parseUnsigned_isDecimal {l : List Char} {q : ℚ}
    (h : parseUnsigned l = some q) : IsDecimal q :=
  parseAfterInt_isDecimal h

theorem parseSigned_isDecimal {l : List Char} {q : ℚ}
    (h : parseSigned l = some q) : IsDecimal q := by
  unfold parseSigned at h
  split at h
  · rw [Option.map_eq_some'] at h
    obtain ⟨v, hv, he⟩ := h
    rw [← he]
    exact isDecimal_neg (parseUnsigned_isDecimal hv)
  · split at h
    · exact parseUnsigned_isDecimal h
    · exact parseUnsigned_isDecimal h

/-! ## The full float() layer over the decimal core -/

theorem isDigit_toNat_lt {c : Char} (h : c.isDigit = true) : c.toNat < 65 := by
  simp only [Char.isDigit, Bool.and_eq_true, decide_eq_true_eq] at h
  have h2 := h.2
  rw [UInt32.le_def, BitVec.le_def] at h2
  have e1 : c.val.toBitVec.toNat = c.toNat := rfl
  have e2 : (UInt32.toBitVec 57).toNat = 57 := rfl
  rw [e1, e2] at h2
  omega

theorem toLower_eq_self_of_small {c : Char} (h : c.toNat < 65) : c.toLower = c := by
  simp only [Char.toLower]
  rw [if_neg]
  omega

theorem plain_toLower_eq_self {c : Char}
    (h : c.isDigit = true ∨ c = '-' ∨ c = '.') : c.toLower = c := by
  rcases h with h | h | h
  · exact toLower_eq_self_of_small (isDigit_toNat_lt h)
  · subst h; decide
  · subst h; decide

theorem plain_ne_i {c : Char} (h : c.isDigit = true ∨ c = '-' ∨ c = '.') :
    c ≠ 'i' ∧ c ≠ 'n' := by
  rcases h with h | h | h
  · exact ⟨fun hc => absurd h (by rw [hc]; decide), fun hc => absurd h (by rw [hc]; decide)⟩
  · subst h; exact ⟨by decide, by decide⟩
  · subst h; exact ⟨by decide, by decide⟩

theorem plain_ne_underscore {c : Char}
    (h : c.isDigit = true ∨ c = '-' ∨ c = '.') : c ≠ '_' := by
  rcases h with h | h | h
  · intro hc; rw [hc] at h; exact absurd h (by decide)
  · subst h; decide
  · subst h; decide

theorem specialFloat_none_plain {body : List Char}
    (hch : ∀ c ∈ body, c.isDigit = true ∨ c = '-' ∨ c = '.') (neg : Bool) :
    specialFloat neg body = none := by
  unfold specialFloat
  cases body with
  | nil => simp [infChars, infinityChars, nanChars]
  | cons c t =>
    have hc := hch c (by simp)
    have hlow : c.toLower = c := plain_toLower_eq_self hc
    obtain ⟨hi, hn⟩ := plain_ne_i hc
    rw [if_neg, if_neg]
    · intro hcon
      rw [List.map_cons, hlow] at hcon
      rw [show nanChars = 'n' :: ['a', 'n'] from rfl] at hcon
      exact hn (List.cons.injEq .. ▸ hcon).1
    · intro hcon
      rcases hcon with hcon | hcon
      · rw [List.map_cons, hlow] at hcon
        rw [show infChars = 'i' :: ['n', 'f'] from rfl] at hcon
        exact hi (List.cons.injEq .. ▸ hcon).1
      · rw [List.map_cons, hlow] at hcon
        rw [show infinityChars = 'i' :: ['n', 'f', 'i', 'n', 'i', 't', 'y'] from rfl] at hcon
        exact hi (List.cons.injEq .. ▸ hcon).1

theorem underscoresOKGo_of_forall {l : List Char} (h : ∀ c ∈ l, c ≠ '_') :
    ∀ prev : Char, underscoresOKGo prev l = true := by
  induction l with
  | nil => intro prev; rfl
  | cons c t ih =>
    intro prev
    unfold underscoresOKGo
    rw [if_neg (h c (by simp))]
    exact ih (fun x hx => h x (by simp [hx])) c

theorem underscoresOK_of_forall {l : List Char} (h : ∀ c ∈ l, c ≠ '_') :
    underscoresOK l = true := underscoresOKGo_of_forall h ' '

theorem stripUnderscores_of_forall {l : List Char} (h : ∀ c ∈ l, c ≠ '_') :
    stripUnderscores l = l := by
  unfold stripUnderscores
  rw [List.filter_eq_self]
  intro a ha
  rw [bne_iff_ne]
  exact h a ha

theorem pyFloatBody_project {body : List Char}
    (hch : ∀ c ∈ body, c.isDigit = true ∨ c = '-' ∨ c = '.') (neg : Bool) :
    (match pyFloatBody neg body with
     | some (PyFloat.finite q) => some q
     | _ => none) =
      if neg then (parseUnsigned body).map (fun q => -q) else parseUnsigned body := by
  have hund : ∀ c ∈ body, c ≠ '_' := fun c hc => plain_ne_underscore (hch c hc)
  unfold pyFloatBody
  rw [specialFloat_none_plain hch neg]
  simp only []
  rw [if_pos (underscoresOK_of_forall hund)]
  rw [stripUnderscores_of_forall hund]
  cases hpu : parseUnsigned body <;> cases neg <;> simp

theorem parseFloat_eq_parseSigned {s : String}
    (hch : ∀ c ∈ trimList s.data, c.isDigit = true ∨ c = '-' ∨ c = '.') :
    parseFloat s = parseSigned (trimList s.data) := by
  have htail : ∀ c ∈ (trimList s.data).tail, c.isDigit = true ∨ c = '-' ∨ c = '.' :=
    fun c hc => hch c (List.mem_of_mem_tail hc)
  unfold parseFloat pyFloat parseSigned
  by_cases h1 : (trimList s.data).head? = some '-'
  · rw [if_pos h1, if_pos h1]
    rw [pyFloatBody_project htail true]
    rfl
  · rw [if_neg h1, if_neg h1]
    by_cases h2 : (trimList s.data).head? = some '+'
    · rw [if_pos h2, if_pos h2]
      rw [pyFloatBody_project htail false]
      rfl
    · rw [if_neg h2, if_neg h2]
      rw [pyFloatBody_project hch false]
      rfl

theorem specialFloat_not_finite {neg : Bool} {body : List Char} {q : ℚ} :
    specialFloat neg body ≠ some (PyFloat.finite q) := by
  unfold specialFloat
  intro h
  simp only [] at h
  split at h
  · rw [Option.some_inj] at h
    cases neg <;> exact PyFloat.noConfusion h
  · split at h
    · rw [Option.some_inj] at h
      exact PyFloat.noConfusion h
    · cases h

theorem pyFloatBody_finite {neg : Bool} {body : List Char} {q : ℚ}
    (h : pyFloatBody neg body = some (PyFloat.finite q)) :
    ∃ q0, parseUnsigned (stripUnderscores body) = some q0 ∧
      q = if neg then -q0 else q0 := by
  unfold pyFloatBody at h
  cases hsp : specialFloat neg body with
  | some v =>
    rw [hsp] at h
    simp only [Option.some_inj] at h
    exact absurd (h ▸ hsp) specialFloat_not_finite
  | none =>
    rw [hsp] at h
    simp only [] at h
    split at h
    · cases hpu : parseUnsigned (stripUnderscores body) <;> rw [hpu] at h
      · cases h
      · rename_i q0
        simp only [Option.some_inj, PyFloat.finite.injEq] at h
        exact ⟨q0, rfl, h.symm⟩
    · cases h

theorem pyFloatBody_finite_isDecimal {neg : Bool} {body : List Char} {q : ℚ}
    (h : pyFloatBody neg body = some (PyFloat.finite q)) : IsDecimal q := by
  obtain ⟨q0, hq0, hval⟩ := pyFloatBody_finite h
  subst hval
  cases neg
  · exact parseUnsigned_isDecimal hq0
  · exact isDecimal_neg (parseUnsigned_isDecimal hq0)

theorem parseFloat_eq_some {s : String} {q : ℚ} (h : parseFloat s = some q) :
    pyFloat s = some (PyFloat.finite q) := by
  unfold parseFloat at h
  cases hpf : pyFloat s with
  | none => rw [hpf] at h; cases h
  | some v =>
    rw [hpf] at h
    cases v with
    | finite q0 =>
      simp only [Option.some_inj] at h
      rw [h]
    | pinf => cases h
    | ninf => cases h
    | nan => cases h

theorem parseFloat_none_of_pyFloat {s : String} (h : pyFloat s = none) :
    parseFloat s = none := by
  unfold parseFloat
  rw [h]

theorem parseFloat_isDecimal {s : String} {q : ℚ}
    (h : parseFloat s = some q) : IsDecimal q := by
  have hpf := parseFloat_eq_some h
  unfold pyFloat at hpf
  split at hpf
  · exact pyFloatBody_finite_isDecimal hpf
  · split at hpf
    · exact pyFloatBody_finite_isDecimal hpf
    · exact pyFloatBody_finite_isDecimal hpf

/-! ## Round trip: parsing a printed decimal -/

theorem mul_pow_den_one {q : ℚ} {k : Nat} (h : q.den ∣ 10 ^ k) :
    (q * (10 : ℚ) ^ k).den = 1 := by
  obtain ⟨c, hc⟩ := h
  have hden : ((q.den : ℚ)) ≠ 0 := by
    exact_mod_cast q.den_nz
  have h10 : ((10 : ℚ)) ^ k = (q.den : ℚ) * (c : ℚ) := by
    have h2 : ((10 ^ k : ℕ) : ℚ) = ((q.den * c : ℕ) : ℚ) := by rw [hc]
    push_cast at h2
    exact h2
  have hq : q * (10 : ℚ) ^ k = ((q.num * (c : ℤ) : ℤ) : ℚ) := by
    rw [h10]
    calc q * ((q.den : ℚ) * (c : ℚ))
        = ((q.num : ℚ) / (q.den : ℚ)) * ((q.den : ℚ) * (c : ℚ)) := by
          rw [Rat.num_div_den]
      _ = (q.num : ℚ) * (c : ℚ) := by field_simp; ring
      _ = ((q.num * (c : ℤ) : ℤ) : ℚ) := by push_cast; ring
  rw [hq, Rat.den_intCast]

theorem isDecimal_den_one {q : ℚ} (h : IsDecimal q) :
    (q * (10 : ℚ) ^ decExp q).den = 1 := by
  obtain ⟨m, hm⟩ := h
  exact mul_pow_den_one (dvd_ten_pow_decExp q.den_pos hm)

theorem parse_body (N k : Nat) :
    parseUnsigned (natToChars (N / 10 ^ k) ++ '.' ::
        (if k = 0 then ['0'] else padZeros k (natToChars (N % 10 ^ k)))) =
      some ((N : ℚ) / 10 ^ k) := by
  have hdot : Char.isDigit '.' = false := by decide
  have ha := natToChars_digits (n := N / 10 ^ k)
  have hane := natToChars_ne_nil (N / 10 ^ k)
  have hfrac : ∀ c ∈ (if k = 0 then ['0'] else padZeros k (natToChars (N % 10 ^ k))),
      c.isDigit = true := by
    intro c hc
    by_cases hk : k = 0
    · rw [if_pos hk] at hc
      simp at hc
      subst hc
      decide
    · rw [if_neg hk] at hc
      exact padZeros_digits natToChars_digits c hc
  unfold parseUnsigned
  rw [takeWhile_append_neg _ ha hdot, dropWhile_append_neg _ ha hdot]
  simp only [parseAfterInt]
  rw [takeWhile_all hfrac, dropWhile_all hfrac]
  unfold parseFrac
  rw [if_neg (by intro hcon; exact hane hcon.1)]
  show some _ = some _
  rw [Option.some_inj]
  unfold decValue
  rw [natToChars_val]
  by_cases hk : k = 0
  · subst hk
    rw [if_pos rfl]
    rw [show digitsValList ['0'] = 0 from rfl]
    norm_num
  · rw [if_neg hk]
    have hmod : N % 10 ^ k < 10 ^ k := Nat.mod_lt _ (by positivity)
    have hlen : (padZeros k (natToChars (N % 10 ^ k))).length = k :=
      padZeros_length (natToChars_len (by omega) hmod)
    rw [padZeros_val, natToChars_val, hlen]
    have h10 : ((10 : ℚ)) ^ k ≠ 0 := by positivity
    have key : ((N / 10 ^ k : ℕ) : ℚ) * (10 : ℚ) ^ k + ((N % 10 ^ k : ℕ) : ℚ) = (N : ℚ) := by
      have h := Nat.div_add_mod N (10 ^ k)
      calc ((N / 10 ^ k : ℕ) : ℚ) * (10 : ℚ) ^ k + ((N % 10 ^ k : ℕ) : ℚ)
          = ((10 ^ k * (N / 10 ^ k) + N % 10 ^ k : ℕ) : ℚ) := by push_cast; ring
        _ = (N : ℚ) := by rw [h]
    rw [eq_div_iff h10, add_mul, div_mul_cancel₀ _ h10]
    exact key

theorem mem_of_head? {α : Type} {l : List α} {c : α} (h : l.head? = some c) : c ∈ l := by
  cases l with
  | nil => cases h
  | cons x t => simp at h; simp [h]

theorem mem_of_getLast? {α : Type} {l : List α} {c : α} (h : l.getLast? = some c) : c ∈ l := by
  rw [← List.head?_reverse] at h
  have := mem_of_head? h
  rwa [List.mem_reverse] at this

theorem trimList_eq_self_of_all {l : List Char} (h : ∀ c ∈ l, pyWS c = false) :
    trimList l = l :=
  trimList_eq_self (fun c hc => h c (mem_of_head? hc)) (fun c hc => h c (mem_of_getLast? hc))

theorem floatRepr_chars {q : ℚ} :
    ∀ c ∈ (floatRepr q).data, c.isDigit = true ∨ c = '-' ∨ c = '.' := by
  intro c hc
  have hdata : (floatRepr q).data =
      (if q < 0 then ['-'] else []) ++
        natToChars ((q * (10 : ℚ) ^ decExp q).num.natAbs / 10 ^ decExp q) ++ '.' ::
        (if decExp q = 0 then ['0']
         else padZeros (decExp q)
           (natToChars ((q * (10 : ℚ) ^ decExp q).num.natAbs % 10 ^ decExp q))) := rfl
  rw [hdata] at hc
  rw [List.append_assoc, List.mem_append] at hc
  rcases hc with hc | hc
  · split at hc
    · simp at hc
      exact Or.inr (Or.inl hc)
    · cases hc
  · rw [List.mem_append] at hc
    rcases hc with hc | hc
    · exact Or.inl (natToChars_digits c hc)
    · rw [List.mem_cons] at hc
      rcases hc with hc | hc
      · exact Or.inr (Or.inr hc)
      · split at hc
        · simp at hc
          subst hc
          exact Or.inl (by decide)
        · exact Or.inl (padZeros_digits natToChars_digits c hc)

theorem floatRepr_not_ws {q : ℚ} : ∀ c ∈ (floatRepr q).data, pyWS c = false := by
  intro c hc
  rcases floatRepr_chars c hc with h | h | h
  · exact isDigit_not_ws h
  · subst h; decide
  · subst h; decide

theorem floatRepr_no_pipe {q : ℚ} : ∀ c ∈ (floatRepr q).data, c ≠ '|' := by
  intro c hc
  rcases floatRepr_chars c hc with h | h | h
  · exact isDigit_ne_pipe h
  · subst h; decide
  · subst h; decide

theorem parseFloat_floatRepr {q : ℚ} (hq : IsDecimal q) :
    parseFloat (floatRepr q) = some q := by
  have hden1 : (q * (10 : ℚ) ^ decExp q).den = 1 := isDecimal_den_one hq
  have htrim : trimList (floatRepr q).data = (floatRepr q).data :=
    trimList_eq_self_of_all floatRepr_not_ws
  have h10 : ((10 : ℚ)) ^ decExp q ≠ 0 := by positivity
  rw [parseFloat_eq_parseSigned (fun c hc => floatRepr_chars c (by rwa [htrim] at hc))]
  rw [htrim]
  by_cases hneg : q < 0
  · -- negative: a leading minus sign
    have hdata : (floatRepr q).data =
        '-' :: (natToChars ((q * (10 : ℚ) ^ decExp q).num.natAbs / 10 ^ decExp q) ++ '.' ::
          (if decExp q = 0 then ['0']
           else padZeros (decExp q)
             (natToChars ((q * (10 : ℚ) ^ decExp q).num.natAbs % 10 ^ decExp q)))) := by
      unfold floatRepr
      rw [if_pos hneg]
      rfl
    rw [hdata]
    unfold parseSigned
    rw [List.head?_cons]
    rw [if_pos rfl]
    rw [List.tail_cons]
    rw [parse_body]
    rw [Option.map_some']
    rw [Option.some_inj]
    have hNq : (((q * (10 : ℚ) ^ decExp q).num.natAbs : ℕ) : ℚ) =
        -(q * (10 : ℚ) ^ decExp q) := by
      rw [Int.cast_natAbs, Int.cast_abs]
      rw [Rat.coe_int_num_of_den_eq_one hden1]
      exact abs_of_nonpos (mul_nonpos_of_nonpos_of_nonneg (le_of_lt hneg) (by positivity))
    rw [hNq, neg_div, neg_neg, mul_div_cancel_right₀ _ h10]
  · -- nonnegative: no sign character
    have hq0 : 0 ≤ q := not_lt.mp hneg
    have hdata : (floatRepr q).data =
        natToChars ((q * (10 : ℚ) ^ decExp q).num.natAbs / 10 ^ decExp q) ++ '.' ::
          (if decExp q = 0 then ['0']
           else padZeros (decExp q)
             (natToChars ((q * (10 : ℚ) ^ decExp q).num.natAbs % 10 ^ decExp q))) := by
      unfold floatRepr
      rw [if_neg hneg]
      rfl
    rw [hdata]
    obtain ⟨c, cs, hcons⟩ : ∃ c cs,
        natToChars ((q * (10 : ℚ) ^ decExp q).num.natAbs / 10 ^ decExp q) = c :: cs := by
      cases h : natToChars ((q * (10 : ℚ) ^ decExp q).num.natAbs / 10 ^ decExp q) with
      | nil => exact absurd h (natToChars_ne_nil _)
      | cons c cs => exact ⟨c, cs, rfl⟩
    have hcd : c.isDigit = true := natToChars_digits c (by rw [hcons]; simp)
    unfold parseSigned
    rw [hcons, List.cons_append, List.head?_cons]
    rw [if_neg (by simp; exact isDigit_ne_minus hcd)]
    rw [if_neg (by simp; exact isDigit_ne_plus hcd)]
    rw [← List.cons_append, ← hcons]
    rw [parse_body]
    rw [Option.some_inj]
    have hNq : (((q * (10 : ℚ) ^ decExp q).num.natAbs : ℕ) : ℚ) =
        q * (10 : ℚ) ^ decExp q := by
      rw [Int.cast_natAbs, Int.cast_abs]
      rw [Rat.coe_int_num_of_den_eq_one hden1]
      exact abs_of_nonneg (mul_nonneg hq0 (by positivity))
    rw [hNq, mul_div_cancel_right₀ _ h10]

/-! ## Scan structure lemmas -/

theorem ScanState.app_empty (s : ScanState) : s.app emptyScan = s := by
  unfold ScanState.app Totals.add emptyScan
  cases s with
  | mk m t sk => simp [Totals.add]

theorem ScanState.empty_app (s : ScanState) : emptyScan.app s = s := by
  unfold ScanState.app Totals.add emptyScan
  cases s with
  | mk m t sk => simp [Totals.add]

theorem ScanState.app_assoc (s t u : ScanState) :
    (s.app t).app u = s.app (t.app u) := by
  unfold ScanState.app Totals.add
  simp [List.append_assoc]
  constructor <;> ring_nf <;> simp [Nat.add_assoc, add_assoc]

theorem scan_step_app (req : String) (n : Nat) (st : ScanState) (l0 : String) :
    scan_step req n st l0 = st.app (scan_step req n emptyScan l0) := by
  unfold scan_step
  by_cases hb : pyStrip l0 = ""
  · simp only [if_pos hb]
    exact (ScanState.app_empty st).symm
  · simp only [if_neg hb]
    rcases hs : pySplit '|' (pyStrip l0) with _ | ⟨f1, _ | ⟨f2, _ | ⟨f3, _ | ⟨f4, _ | ⟨f5, _ | ⟨f6, _ | ⟨f7, rest⟩⟩⟩⟩⟩⟩⟩ <;>
      try (simp only [ScanState.addSkip, ScanState.app, Totals.add, emptyScan]
           cases st with
           | mk m t sk => simp [Totals.add])
    -- exactly six fields
    by_cases hm : req ≠ "All" ∧ f1 ≠ req
    · simp only [if_pos hm]
      exact (ScanState.app_empty st).symm
    · simp only [if_neg hm]
      rcases h1 : parseFloat f4 with _ | hv <;> rcases h2 : parseFloat f5 with _ | rv <;>
        rcases h3 : parseFloat f6 with _ | tp <;>
        simp only [ScanState.addSkip, ScanState.addMatch, ScanState.app, Totals.add,
          Totals.addRec, emptyScan] <;>
        (cases st with
         | mk m t sk => simp [Totals.add, Totals.addRec])

theorem scan_linesAux_accum (req : String) (lines : List String) :
    ∀ (n : Nat) (st : ScanState),
      scan_linesAux req n st lines = st.app (scan_linesAux req n emptyScan lines) := by
  induction lines with
  | nil => intro n st; exact (ScanState.app_empty st).symm
  | cons l0 rest ih =>
    intro n st
    show scan_linesAux req (n + 1) (scan_step req n st l0) rest = _
    rw [ih (n + 1) (scan_step req n st l0)]
    rw [scan_step_app req n st l0]
    rw [ScanState.app_assoc]
    congr 1
    show _ = scan_linesAux req (n + 1) (scan_step req n emptyScan l0) rest
    rw [ih (n + 1) (scan_step req n emptyScan l0)]

theorem scan_linesAux_append (req : String) (a b : List String) :
    ∀ (n : Nat) (st : ScanState),
      scan_linesAux req n st (a ++ b) =
        scan_linesAux req (n + a.length) (scan_linesAux req n st a) b := by
  induction a with
  | nil => intro n st; simp [scan_linesAux]
  | cons l0 rest ih =>
    intro n st
    show scan_linesAux req (n + 1) (scan_step req n st l0) (rest ++ b) = _
    rw [ih (n + 1) (scan_step req n st l0)]
    congr 1
    · simp
      omega

theorem scan_step_blank {req : String} {n : Nat} {st : ScanState} {l0 : String}
    (hb : pyStrip l0 = "") : scan_step req n st l0 = st := by
  unfold scan_step
  rw [if_pos hb]

theorem scan_step_badsplit {req : String} {n : Nat} {st : ScanState} {l0 : String}
    (hne : pyStrip l0 ≠ "") (hlen : (pySplit '|' (pyStrip l0)).length ≠ 6) :
    scan_step req n st l0 = st.addSkip n (pyStrip l0) := by
  unfold scan_step
  rw [if_neg hne]
  rcases hs : pySplit '|' (pyStrip l0) with _ | ⟨f1, _ | ⟨f2, _ | ⟨f3, _ | ⟨f4, _ | ⟨f5, _ | ⟨f6, _ | ⟨f7, rest⟩⟩⟩⟩⟩⟩⟩ <;>
    first
    | rfl
    | (exfalso; rw [hs] at hlen; simp at hlen)

theorem scan_step_nomatch {req : String} {n : Nat} {st : ScanState} {l0 : String}
    {fd td nm hs rs ts : String}
    (hne : pyStrip l0 ≠ "")
    (hsplit : pySplit '|' (pyStrip l0) = [fd, td, nm, hs, rs, ts])
    (hm : req ≠ "All" ∧ fd ≠ req) :
    scan_step req n st l0 = st := by
  unfold scan_step
  rw [if_neg hne, hsplit]
  exact if_pos hm

theorem scan_step_badnum {req : String} {n : Nat} {st : ScanState} {l0 : String}
    {fd td nm hs rs ts : String}
    (hne : pyStrip l0 ≠ "")
    (hsplit : pySplit '|' (pyStrip l0) = [fd, td, nm, hs, rs, ts])
    (hm : ¬ (req ≠ "All" ∧ fd ≠ req))
    (hnum : parseFloat hs = none ∨ parseFloat rs = none ∨ parseFloat ts = none) :
    scan_step req n st l0 = st.addSkip n (pyStrip l0) := by
  unfold scan_step
  rw [if_neg hne, hsplit]
  show (if req ≠ "All" ∧ fd ≠ req then st
        else match parseFloat hs, parseFloat rs, parseFloat ts with
          | some hv, some rv, some tp =>
            st.addMatch ⟨fd, td, nm, hv, rv, tp / 100, hv * rv, hv * rv * (tp / 100),
              hv * rv - hv * rv * (tp / 100)⟩
          | _, _, _ => st.addSkip n (pyStrip l0)) = _
  rw [if_neg hm]
  rcases h1 : parseFloat hs with _ | hv <;> rcases h2 : parseFloat rs with _ | rv <;>
      rcases h3 : parseFloat ts with _ | tp <;> try rfl
  rw [h1, h2, h3] at hnum
  rcases hnum with h | h | h <;> cases h

theorem scan_step_match {req : String} {n : Nat} {st : ScanState} {l0 : String}
    {fd td nm hs rs ts : String} {hv rv tp : ℚ}
    (hne : pyStrip l0 ≠ "")
    (hsplit : pySplit '|' (pyStrip l0) = [fd, td, nm, hs, rs, ts])
    (hm : ¬ (req ≠ "All" ∧ fd ≠ req))
    (hhs : parseFloat hs = some hv) (hrs : parseFloat rs = some rv)
    (hts : parseFloat ts = some tp) :
    scan_step req n st l0 =
      st.addMatch ⟨fd, td, nm, hv, rv, tp / 100, hv * rv, hv * rv * (tp / 100),
        hv * rv - hv * rv * (tp / 100)⟩ := by
  unfold scan_step
  rw [if_neg hne, hsplit]
  show (if req ≠ "All" ∧ fd ≠ req then st
        else match parseFloat hs, parseFloat rs, parseFloat ts with
          | some hv, some rv, some tp =>
            st.addMatch ⟨fd, td, nm, hv, rv, tp / 100, hv * rv, hv * rv * (tp / 100),
              hv * rv - hv * rv * (tp / 100)⟩
          | _, _, _ => st.addSkip n (pyStrip l0)) = _
  rw [if_neg hm, hhs, hrs, hts]

theorem parse_line_none_of_blank {l0 : String} (hb : pyStrip l0 = "") :
    parse_line l0 = none := by
  unfold parse_line
  rw [if_pos hb]

theorem parse_line_none_of_badsplit {l0 : String}
    (hlen : (pySplit '|' (pyStrip l0)).length ≠ 6) : parse_line l0 = none := by
  unfold parse_line
  by_cases hb : pyStrip l0 = ""
  · rw [if_pos hb]
  · rw [if_neg hb]
    rcases hs : pySplit '|' (pyStrip l0) with _ | ⟨f1, _ | ⟨f2, _ | ⟨f3, _ | ⟨f4, _ | ⟨f5, _ | ⟨f6, _ | ⟨f7, rest⟩⟩⟩⟩⟩⟩⟩ <;>
      first
      | rfl
      | (exfalso; rw [hs] at hlen; simp at hlen)

theorem parse_line_some {l0 : String} {fd td nm hs rs ts : String} {hv rv tp : ℚ}
    (hne : pyStrip l0 ≠ "")
    (hsplit : pySplit '|' (pyStrip l0) = [fd, td, nm, hs, rs, ts])
    (hhs : parseFloat hs = some hv) (hrs : parseFloat rs = some rv)
    (hts : parseFloat ts = some tp) :
    parse_line l0 =
      some ⟨fd, td, nm, hv, rv, tp / 100, hv * rv, hv * rv * (tp / 100),
        hv * rv - hv * rv * (tp / 100)⟩ := by
  unfold parse_line
  rw [if_neg hne, hsplit]
  show (match parseFloat hs, parseFloat rs, parseFloat ts with
        | some hv, some rv, some tp =>
          some (⟨fd, td, nm, hv, rv, tp / 100, hv * rv, hv * rv * (tp / 100),
            hv * rv - hv * rv * (tp / 100)⟩ : PayRecord)
        | _, _, _ => none) = _
  rw [hhs, hrs, hts]

theorem parse_line_none_badnum {l0 : String} {fd td nm hs rs ts : String}
    (hne : pyStrip l0 ≠ "")
    (hsplit : pySplit '|' (pyStrip l0) = [fd, td, nm, hs, rs, ts])
    (hnum : parseFloat hs = none ∨ parseFloat rs = none ∨ parseFloat ts = none) :
    parse_line l0 = none := by
  unfold parse_line
  rw [if_neg hne, hsplit]
  show (match parseFloat hs, parseFloat rs, parseFloat ts with
        | some hv, some rv, some tp =>
          some (⟨fd, td, nm, hv, rv, tp / 100, hv * rv, hv * rv * (tp / 100),
            hv * rv - hv * rv * (tp / 100)⟩ : PayRecord)
        | _, _, _ => none) = _
  rcases h1 : parseFloat hs with _ | hv <;> rcases h2 : parseFloat rs with _ | rv <;>
      rcases h3 : parseFloat ts with _ | tp <;> try rfl
  rw [h1, h2, h3] at hnum
  rcases hnum with h | h | h <;> cases h

theorem six_fields_of_length {l : List String} (h : l.length = 6) :
    ∃ a b c d e f, l = [a, b, c, d, e, f] := by
  rcases l with _ | ⟨a, _ | ⟨b, _ | ⟨c, _ | ⟨d, _ | ⟨e, _ | ⟨f, _ | ⟨g, rest⟩⟩⟩⟩⟩⟩⟩ <;>
    simp at h
  exact ⟨a, b, c, d, e, f, rfl⟩

theorem scan_matched (req : String) (lines : List String) : ∀ n : Nat,
    (scan_linesAux req n emptyScan lines).matched =
      (lines.filterMap parse_line).filter
        (fun r => decide (req = "All" ∨ r.from_date = req)) := by
  induction lines with
  | nil => intro n; rfl
  | cons l0 rest ih =>
    intro n
    show (scan_linesAux req (n + 1) (scan_step req n emptyScan l0) rest).matched = _
    rw [scan_linesAux_accum]
    show (scan_step req n emptyScan l0).matched ++
        (scan_linesAux req (n + 1) emptyScan rest).matched = _
    rw [ih (n + 1), List.filterMap_cons]
    by_cases hb : pyStrip l0 = ""
    · rw [scan_step_blank hb, parse_line_none_of_blank hb]
      rfl
    · by_cases hlen : (pySplit '|' (pyStrip l0)).length = 6
      · obtain ⟨fd, td, nm, hs, rs, ts, hsplit⟩ := six_fields_of_length hlen
        rcases hhs : parseFloat hs with _ | hv
        · rw [parse_line_none_badnum hb hsplit (Or.inl hhs)]
          by_cases hm : req ≠ "All" ∧ fd ≠ req
          · rw [scan_step_nomatch hb hsplit hm]
            rfl
          · rw [scan_step_badnum hb hsplit hm (Or.inl hhs)]
            rfl
        · rcases hrs : parseFloat rs with _ | rv
          · rw [parse_line_none_badnum hb hsplit (Or.inr (Or.inl hrs))]
            by_cases hm : req ≠ "All" ∧ fd ≠ req
            · rw [scan_step_nomatch hb hsplit hm]
              rfl
            · rw [scan_step_badnum hb hsplit hm (Or.inr (Or.inl hrs))]
              rfl
          · rcases hts : parseFloat ts with _ | tp
            · rw [parse_line_none_badnum hb hsplit (Or.inr (Or.inr hts))]
              by_cases hm : req ≠ "All" ∧ fd ≠ req
              · rw [scan_step_nomatch hb hsplit hm]
                rfl
              · rw [scan_step_badnum hb hsplit hm (Or.inr (Or.inr hts))]
                rfl
            · rw [parse_line_some hb hsplit hhs hrs hts]
              by_cases hm : req ≠ "All" ∧ fd ≠ req
              · rw [scan_step_nomatch hb hsplit hm]
                rw [List.filter_cons]
                have hpred : decide (req = "All" ∨
                    (⟨fd, td, nm, hv, rv, tp / 100, hv * rv, hv * rv * (tp / 100),
                      hv * rv - hv * rv * (tp / 100)⟩ : PayRecord).from_date = req) = false := by
                  simp only [decide_eq_false_iff_not]
                  rintro (h | h)
                  · exact hm.1 h
                  · exact hm.2 h
                rw [hpred]
                simp [emptyScan]
              · rw [scan_step_match hb hsplit hm hhs hrs hts]
                rw [List.filter_cons]
                have hpred : decide (req = "All" ∨
                    (⟨fd, td, nm, hv, rv, tp / 100, hv * rv, hv * rv * (tp / 100),
                      hv * rv - hv * rv * (tp / 100)⟩ : PayRecord).from_date = req) = true := by
                  simp only [decide_eq_true_eq]
                  by_cases hall : req = "All"
                  · exact Or.inl hall
                  · push_neg at hm
                    exact Or.inr (hm hall)
                rw [hpred]
                show ([] ++ [_]) ++ _ = _
                simp
      · rw [scan_step_badsplit hb hlen, parse_line_none_of_badsplit hlen]
        rfl

theorem scan_step_empty_cases (req : String) (n : Nat) (l0 : String) :
    scan_step req n emptyScan l0 = emptyScan ∨
    scan_step req n emptyScan l0 = emptyScan.addSkip n (pyStrip l0) ∨
    ∃ r, scan_step req n emptyScan l0 = emptyScan.addMatch r := by
  unfold scan_step
  by_cases hb : pyStrip l0 = ""
  · exact Or.inl (by simp only [if_pos hb])
  · simp only [if_neg hb]
    rcases hs : pySplit '|' (pyStrip l0) with _ | ⟨f1, _ | ⟨f2, _ | ⟨f3, _ | ⟨f4, _ | ⟨f5, _ | ⟨f6, _ | ⟨f7, rest⟩⟩⟩⟩⟩⟩⟩ <;>
      try exact Or.inr (Or.inl rfl)
    by_cases hm : req ≠ "All" ∧ f1 ≠ req
    · exact Or.inl (by simp only [if_pos hm])
    · simp only [if_neg hm]
      rcases h1 : parseFloat f4 with _ | hv <;> rcases h2 : parseFloat f5 with _ | rv <;>
          rcases h3 : parseFloat f6 with _ | tp <;> try exact Or.inr (Or.inl rfl)
      exact Or.inr (Or.inr ⟨_, rfl⟩)

theorem scan_totals (req : String) (lines : List String) : ∀ n : Nat,
    (scan_linesAux req n emptyScan lines).totals =
      ⟨(scan_linesAux req n emptyScan lines).matched.length,
        ((scan_linesAux req n emptyScan lines).matched.map PayRecord.hours).sum,
        ((scan_linesAux req n emptyScan lines).matched.map PayRecord.gross).sum,
        ((scan_linesAux req n emptyScan lines).matched.map PayRecord.tax).sum,
        ((scan_linesAux req n emptyScan lines).matched.map PayRecord.net).sum⟩ := by
  induction lines with
  | nil => intro n; rfl
  | cons l0 rest ih =>
    intro n
    have hstate : scan_linesAux req n emptyScan (l0 :: rest) =
        (scan_step req n emptyScan l0).app (scan_linesAux req (n + 1) emptyScan rest) := by
      show scan_linesAux req (n + 1) (scan_step req n emptyScan l0) rest = _
      exact scan_linesAux_accum req rest (n + 1) _
    rw [hstate]
    rcases scan_step_empty_cases req n l0 with h | h | ⟨r, h⟩ <;>
      rw [h] <;>
      simp only [ScanState.app, ScanState.addMatch, ScanState.addSkip] <;>
      rw [ih (n + 1)] <;>
      simp [Totals.add, Totals.addRec, emptyScan, add_comm]

/-! ## Reader loop lemmas -/

theorem prompt_yes_no_rest {l : List String} {b : Bool} {r : List String}
    (h : prompt_yes_no l = some (b, r)) : r.length < l.length := by
  induction l with
  | nil => cases h
  | cons a rest ih =>
    unfold prompt_yes_no at h
    simp only [] at h
    split at h
    · simp at h
      rw [← h.2]
      simp
    · split at h
      · simp at h
        rw [← h.2]
        simp
      · have := ih h
        simp
        omega

theorem gate_endCancelled_rest {s : String} {l r : List String}
    (h : check_for_end_and_confirm s l = .endCancelled r) : r.length < l.length := by
  unfold check_for_end_and_confirm at h
  split at h
  · split at h
    · cases h
    · cases h
    · rename_i heq
      cases h
      exact prompt_yes_no_rest heq
  · cases h

theorem gate_quitConfirmed_rest {s : String} {l r : List String}
    (h : check_for_end_and_confirm s l = .quitConfirmed r) : r.length < l.length := by
  unfold check_for_end_and_confirm at h
  split at h
  · split at h
    · cases h
    · rename_i heq
      cases h
      exact prompt_yes_no_rest heq
    · cases h
  · cases h

theorem readLoopAux_fuel {α : Type} (sp v : String → Option α) :
    ∀ (f : Nat) (l : List String), l.length ≤ f →
      readLoopAux sp v f l = readLoopAux sp v l.length l := by
  intro f
  induction f using Nat.strong_induction_on with
  | _ f ih =>
    intro l hl
    cases l with
    | nil => cases f <;> rfl
    | cons s0 rest =>
      cases f with
      | zero => simp at hl
      | succ f =>
        simp only [List.length_cons] at hl ⊢
        show readLoopAux sp v (f + 1) (s0 :: rest) =
          readLoopAux sp v (rest.length + 1) (s0 :: rest)
        simp only [readLoopAux]
        by_cases hb : pyStrip s0 = ""
        · simp only [if_pos hb]
          rw [ih f (by omega) rest (by omega)]
        · simp only [if_neg hb]
          cases hsp : sp (pyStrip s0) with
          | some x => rfl
          | none =>
            cases hg : check_for_end_and_confirm (pyStrip s0) rest with
            | exhaustedG => rfl
            | quitConfirmed r => rfl
            | endCancelled r =>
              have hr : r.length < rest.length := gate_endCancelled_rest hg
              show readLoopAux sp v f r = readLoopAux sp v rest.length r
              rw [ih f (by omega) r (by omega)]
              rw [ih rest.length (by omega) r (by omega)]
            | notEnd =>
              cases hv : v (pyStrip s0) with
              | some x => rfl
              | none =>
                show readLoopAux sp v f rest = readLoopAux sp v rest.length rest
                exact ih f (by omega) rest (by omega)

theorem readLoopAux_ok_rest {α : Type} {sp v : String → Option α} :
    ∀ {f : Nat} {l : List String} {x : α} {r : List String},
      readLoopAux sp v f l = .ok x r → r.length < l.length := by
  intro f
  induction f with
  | zero => intro l x r h; cases h
  | succ f ih =>
    intro l x r h
    cases l with
    | nil => cases h
    | cons s0 rest =>
      rw [show readLoopAux sp v (f + 1) (s0 :: rest) =
        (if pyStrip s0 = "" then readLoopAux sp v f rest
         else
           match sp (pyStrip s0) with
           | some w => .ok w rest
           | none =>
             match check_for_end_and_confirm (pyStrip s0) rest with
             | .exhaustedG => .exhausted
             | .quitConfirmed r => .quit r
             | .endCancelled r => readLoopAux sp v f r
             | .notEnd =>
               match v (pyStrip s0) with
               | some w => .ok w rest
               | none => readLoopAux sp v f rest) from rfl] at h
      split at h
      · have := ih h
        simp
        omega
      · split at h
        · simp at h
          rw [← h.2]
          simp
        · split at h
          · cases h
          · cases h
          · rename_i r2 hg
            have hr2 : r2.length < rest.length := gate_endCancelled_rest hg
            have := ih h
            simp
            omega
          · split at h
            · simp at h
              rw [← h.2]
              simp
            · have := ih h
              simp
              omega

theorem readLoopAux_ok_value {α : Type} {sp v : String → Option α} :
    ∀ {f : Nat} {l : List String} {x : α} {r : List String},
      readLoopAux sp v f l = .ok x r →
        (∃ s, sp (pyStrip s) = some x) ∨ (∃ s, v (pyStrip s) = some x) := by
  intro f
  induction f with
  | zero => intro l x r h; cases h
  | succ f ih =>
    intro l x r h
    cases l with
    | nil => cases h
    | cons s0 rest =>
      rw [show readLoopAux sp v (f + 1) (s0 :: rest) =
        (if pyStrip s0 = "" then readLoopAux sp v f rest
         else
           match sp (pyStrip s0) with
           | some w => .ok w rest
           | none =>
             match check_for_end_and_confirm (pyStrip s0) rest with
             | .exhaustedG => .exhausted
             | .quitConfirmed r => .quit r
             | .endCancelled r => readLoopAux sp v f r
             | .notEnd =>
               match v (pyStrip s0) with
               | some w => .ok w rest
               | none => readLoopAux sp v f rest) from rfl] at h
      split at h
      · exact ih h
      · split at h
        · rename_i hsp
          simp at h
          exact Or.inl ⟨s0, by rw [hsp, h.1]⟩
        · split at h
          · cases h
          · cases h
          · exact ih h
          · split at h
            · rename_i hv
              simp at h
              exact Or.inr ⟨s0, by rw [hv, h.1]⟩
            · exact ih h

theorem isEndToken_ne_blank {e : String} (he : pyLower (pyStrip e) = "end") :
    pyStrip e ≠ "" := by
  intro h
  rw [h] at he
  exact absurd he (by decide)

theorem readLoop_unfold {α : Type} (sp v : String → Option α) (f : Nat)
    (s0 : String) (rest : List String) :
    readLoopAux sp v (f + 1) (s0 :: rest) =
      (if pyStrip s0 = "" then readLoopAux sp v f rest
       else
         match sp (pyStrip s0) with
         | some w => .ok w rest
         | none =>
           match check_for_end_and_confirm (pyStrip s0) rest with
           | .exhaustedG => .exhausted
           | .quitConfirmed r => .quit r
           | .endCancelled r => readLoopAux sp v f r
           | .notEnd =>
             match v (pyStrip s0) with
             | some w => .ok w rest
             | none => readLoopAux sp v f rest) := rfl

theorem readLoop_blank {α : Type} (sp v : String → Option α) (s : String)
    (rest : List String) (hb : pyStrip s = "") :
    readLoopAux sp v (s :: rest).length (s :: rest) =
      readLoopAux sp v rest.length rest := by
  simp only [List.length_cons]
  rw [readLoop_unfold, if_pos hb]

theorem gate_notEnd {s : String} (inputs : List String)
    (hend : pyLower (pyStrip s) ≠ "end") :
    check_for_end_and_confirm s inputs = .notEnd := by
  unfold check_for_end_and_confirm
  rw [if_neg hend]

theorem gate_end_declined {s : String} {nn : String} (rest : List String)
    (he : pyLower (pyStrip s) = "end")
    (hn : pyLower (pyStrip nn) = "n" ∨ pyLower (pyStrip nn) = "no") :
    check_for_end_and_confirm s (nn :: rest) = .endCancelled rest := by
  unfold check_for_end_and_confirm
  rw [he, if_pos rfl]
  have hprompt : prompt_yes_no (nn :: rest) = some (false, rest) := by
    unfold prompt_yes_no
    simp only []
    rw [if_neg (by rcases hn with h | h <;> rw [h] <;> decide)]
    rw [if_pos (by rcases hn with h | h <;> rw [h] <;> [exact Or.inl rfl; exact Or.inr rfl])]
  rw [hprompt]

theorem readLoop_end_cancel {α : Type} (sp v : String → Option α) (e nn : String)
    (rest : List String) (hsp : sp (pyStrip e) = none)
    (he : pyLower (pyStrip e) = "end")
    (hn : pyLower (pyStrip nn) = "n" ∨ pyLower (pyStrip nn) = "no") :
    readLoopAux sp v (e :: nn :: rest).length (e :: nn :: rest) =
      readLoopAux sp v rest.length rest := by
  have hne := isEndToken_ne_blank he
  have hgate : check_for_end_and_confirm (pyStrip e) (nn :: rest) = .endCancelled rest := by
    have := gate_end_declined (s := pyStrip e) rest (by rwa [pyStrip_idem]) hn
    exact this
  simp only [List.length_cons]
  rw [readLoop_unfold, if_neg hne, hsp, hgate]
  exact readLoopAux_fuel sp v (rest.length + 1) rest (by omega)

theorem readLoop_invalid {α : Type} (sp v : String → Option α) (s : String)
    (rest : List String) (hne : pyStrip s ≠ "") (hsp : sp (pyStrip s) = none)
    (hend : pyLower (pyStrip s) ≠ "end") (hv : v (pyStrip s) = none) :
    readLoopAux sp v (s :: rest).length (s :: rest) =
      readLoopAux sp v rest.length rest := by
  have hgate : check_for_end_and_confirm (pyStrip s) rest = .notEnd :=
    gate_notEnd rest (by rwa [pyStrip_idem])
  simp only [List.length_cons]
  rw [readLoop_unfold, if_neg hne, hsp, hgate, hv]

theorem readLoop_accept {α : Type} (sp v : String → Option α) (s : String)
    (rest : List String) {x : α} (hne : pyStrip s ≠ "") (hsp : sp (pyStrip s) = none)
    (hend : pyLower (pyStrip s) ≠ "end") (hv : v (pyStrip s) = some x) :
    readLoopAux sp v (s :: rest).length (s :: rest) = .ok x rest := by
  have hgate : check_for_end_and_confirm (pyStrip s) rest = .notEnd :=
    gate_notEnd rest (by rwa [pyStrip_idem])
  simp only [List.length_cons]
  rw [readLoop_unfold, if_neg hne, hsp, hgate, hv]

theorem readLoop_special {α : Type} (sp v : String → Option α) (s : String)
    (rest : List String) {x : α} (hne : pyStrip s ≠ "")
    (hsp : sp (pyStrip s) = some x) :
    readLoopAux sp v (s :: rest).length (s :: rest) = .ok x rest := by
  simp only [List.length_cons]
  rw [readLoop_unfold, if_neg hne, hsp]

/-! ## Entry menu fuel lemmas -/

theorem add_unfold (f : Nat) (inputs : List String) (session : List PayRecordF)
    (file : List String) :
    add_employeesAux (f + 1) inputs session file =
      (match read_date false inputs with
       | .exhausted => .exhausted
       | .quit r => .quitR file r
       | .ok from_date r1 =>
         match read_date false r1 with
         | .exhausted => .exhausted
         | .quit r => .quitR file r
         | .ok to_date r2 =>
           match input_name r2 with
           | .exhausted => .exhausted
           | .quit r => .quitR file r
           | .ok name r3 =>
             match input_hours r3 with
             | .exhausted => .exhausted
             | .quit r => .quitR file r
             | .ok hours r4 =>
               match input_hourly_rate r4 with
               | .exhausted => .exhausted
               | .quit r => .quitR file r
               | .ok rate r5 =>
                 match input_tax_rate r5 with
                 | .exhausted => .exhausted
                 | .quit r => .quitR file r
                 | .ok tax_rate r6 =>
                   match r6 with
                   | [] => .exhausted
                   | c :: r7 =>
                     if pyLower (pyStrip c) = "y" then
                       add_employeesAux f r7
                         (session ++ [⟨from_date, to_date, name, hours, rate, tax_rate,
                           hours.mul rate,
                           (hours.mul rate).mul (PyFloat.finite tax_rate),
                           (hours.mul rate).sub
                             ((hours.mul rate).mul (PyFloat.finite tax_rate))⟩])
                         (write_recordF_to_file
                           ⟨from_date, to_date, name, hours, rate, tax_rate,
                             hours.mul rate,
                             (hours.mul rate).mul (PyFloat.finite tax_rate),
                             (hours.mul rate).sub
                               ((hours.mul rate).mul (PyFloat.finite tax_rate))⟩
                           file)
                     else
                       .done
                         (session ++ [⟨from_date, to_date, name, hours, rate, tax_rate,
                           hours.mul rate,
                           (hours.mul rate).mul (PyFloat.finite tax_rate),
                           (hours.mul rate).sub
                             ((hours.mul rate).mul (PyFloat.finite tax_rate))⟩])
                         (write_recordF_to_file
                           ⟨from_date, to_date, name, hours, rate, tax_rate,
                             hours.mul rate,
                             (hours.mul rate).mul (PyFloat.finite tax_rate),
                             (hours.mul rate).sub
                               ((hours.mul rate).mul (PyFloat.finite tax_rate))⟩
                           file)
                         r7) := rfl

theorem add_employeesAux_fuel :
    ∀ (f : Nat) (inputs : List String) (session : List PayRecordF) (file : List String),
      inputs.length ≤ f →
      add_employeesAux f inputs session file =
        add_employeesAux inputs.length inputs session file := by
  intro f
  induction f using Nat.strong_induction_on with
  | _ f ih =>
    intro inputs session file hl
    cases f with
    | zero =>
      cases inputs with
      | nil => rfl
      | cons a b => simp at hl
    | succ f =>
      cases inputs with
      | nil => rfl
      | cons i0 irest =>
        simp only [List.length_cons] at hl ⊢
        rw [add_unfold f, add_unfold irest.length]
        cases h1 : read_date false (i0 :: irest) with
        | exhausted => rfl
        | quit r => rfl
        | ok fd r1 =>
          have hb1 : r1.length < irest.length + 1 := readLoopAux_ok_rest h1
          simp only []
          cases h2 : read_date false r1 with
          | exhausted => rfl
          | quit r => rfl
          | ok td r2 =>
            have hb2 : r2.length < r1.length := readLoopAux_ok_rest h2
            simp only []
            cases h3 : input_name r2 with
            | exhausted => rfl
            | quit r => rfl
            | ok nm r3 =>
              have hb3 : r3.length < r2.length := readLoopAux_ok_rest h3
              simp only []
              cases h4 : input_hours r3 with
              | exhausted => rfl
              | quit r => rfl
              | ok hv r4 =>
                have hb4 : r4.length < r3.length := readLoopAux_ok_rest h4
                simp only []
                cases h5 : input_hourly_rate r4 with
                | exhausted => rfl
                | quit r => rfl
                | ok rv r5 =>
                  have hb5 : r5.length < r4.length := readLoopAux_ok_rest h5
                  simp only []
                  cases h6 : input_tax_rate r5 with
                  | exhausted => rfl
                  | quit r => rfl
                  | ok tv r6 =>
                    have hb6 : r6.length < r5.length := readLoopAux_ok_rest h6
                    simp only []
                    cases r6 with
                    | nil => rfl
                    | cons c r7 =>
                      simp only [List.length_cons] at hb6
                      simp only []
                      by_cases hcont : pyLower (pyStrip c) = "y"
                      · rw [if_pos hcont, if_pos hcont]
                        rw [ih f (by omega) r7 _ _ (by omega)]
                        rw [ih irest.length (by omega) r7 _ _ (by omega)]
                      · rw [if_neg hcont, if_neg hcont]

/-! ## Per-reader corollaries of the gate lemmas -/

theorem dateSpecial_end {allow_all : Bool} {e : String}
    (he : pyLower (pyStrip e) = "end") : dateSpecial allow_all (pyStrip e) = none := by
  unfold dateSpecial
  rw [if_neg]
  intro hc
  rw [he] at hc
  exact absurd hc.2 (by decide)

theorem read_date_end_cancel (allow_all : Bool) (e nn : String) (rest : List String)
    (he : pyLower (pyStrip e) = "end")
    (hn : pyLower (pyStrip nn) = "n" ∨ pyLower (pyStrip nn) = "no") :
    read_date allow_all (e :: nn :: rest) = read_date allow_all rest :=
  readLoop_end_cancel _ _ e nn rest (dateSpecial_end he) he hn

theorem input_name_end_cancel (e nn : String) (rest : List String)
    (he : pyLower (pyStrip e) = "end")
    (hn : pyLower (pyStrip nn) = "n" ∨ pyLower (pyStrip nn) = "no") :
    input_name (e :: nn :: rest) = input_name rest :=
  readLoop_end_cancel _ _ e nn rest rfl he hn

theorem input_hours_end_cancel (e nn : String) (rest : List String)
    (he : pyLower (pyStrip e) = "end")
    (hn : pyLower (pyStrip nn) = "n" ∨ pyLower (pyStrip nn) = "no") :
    input_hours (e :: nn :: rest) = input_hours rest :=
  readLoop_end_cancel _ _ e nn rest rfl he hn

theorem input_hourly_rate_end_cancel (e nn : String) (rest : List String)
    (he : pyLower (pyStrip e) = "end")
    (hn : pyLower (pyStrip nn) = "n" ∨ pyLower (pyStrip nn) = "no") :
    input_hourly_rate (e :: nn :: rest) = input_hourly_rate rest :=
  readLoop_end_cancel _ _ e nn rest rfl he hn

theorem input_tax_rate_end_cancel (e nn : String) (rest : List String)
    (he : pyLower (pyStrip e) = "end")
    (hn : pyLower (pyStrip nn) = "n" ∨ pyLower (pyStrip nn) = "no") :
    input_tax_rate (e :: nn :: rest) = input_tax_rate rest :=
  readLoop_end_cancel _ _ e nn rest rfl he hn

/-! ## Field validator lemmas -/

theorem hoursValidate_some {s : String} {x : PyFloat} (h : hoursValidate s = some x) :
    PyFloat.ltb x (PyFloat.finite 0) = false ∧ pyFloat s = some x := by
  unfold hoursValidate at h
  split at h
  · cases h
  · rename_i hv hp
    split at h
    · cases h
    · rename_i hlt
      rw [Option.some_inj] at h
      subst h
      exact ⟨Bool.eq_false_iff.mpr hlt, hp⟩

theorem rateValidate_some {s : String} {x : PyFloat} (h : rateValidate s = some x) :
    PyFloat.ltb x (PyFloat.finite 0) = false ∧ pyFloat s = some x := by
  unfold rateValidate at h
  split at h
  · cases h
  · rename_i hv hp
    split at h
    · cases h
    · rename_i hlt
      rw [Option.some_inj] at h
      subst h
      exact ⟨Bool.eq_false_iff.mpr hlt, hp⟩

theorem taxValidate_some {s : String} {x : ℚ} (h : taxValidate s = some x) :
    ∃ p : ℚ, parseFloat s = some p ∧ 0 ≤ p ∧ p ≤ 100 ∧ x = p / 100 := by
  unfold taxValidate at h
  cases hpf : pyFloat s with
  | none => rw [hpf] at h; cases h
  | some v =>
    rw [hpf] at h
    cases v with
    | finite pct =>
      simp only [] at h
      split at h
      · rename_i hrange
        rw [Option.some_inj] at h
        refine ⟨pct, ?_, hrange.1, hrange.2, h.symm⟩
        unfold parseFloat
        rw [hpf]
      · cases h
    | pinf => cases h
    | ninf => cases h
    | nan => cases h

/-! ## Valid date strings: character structure -/

theorem mk_data (s : String) : (⟨s.data⟩ : String) = s := rfl

theorem pipe_data : ("|" : String).data = ['|'] := rfl

theorem pySplit_three {c : Char} {s m d y : String}
    (h : pySplit c s = [m, d, y]) : splitC c s.data = [m.data, d.data, y.data] := by
  unfold pySplit at h
  rcases hX : splitC c s.data with _ | ⟨a, _ | ⟨b, _ | ⟨cc, _ | ⟨e, rest⟩⟩⟩⟩ <;>
    rw [hX] at h <;> simp at h
  obtain ⟨h1, h2, h3⟩ := h
  rw [← h1, ← h2, ← h3]

theorem valid_mdY_structure {s : String} (h : valid_mdY s = true) :
    ∃ m d y : String,
      pySplit '/' s = [m, d, y] ∧
      s.data = m.data ++ '/' :: (d.data ++ '/' :: y.data) ∧
      m.data ≠ [] ∧ (∀ ch ∈ m.data, ch.isDigit = true) ∧
      (∀ ch ∈ d.data, ch.isDigit = true) ∧
      (∀ ch ∈ y.data, ch.isDigit = true) := by
  unfold valid_mdY at h
  split at h
  · rename_i m d y heq
    refine ⟨m, d, y, heq, ?_, ?_, ?_, ?_, ?_⟩
    · have h3 := pySplit_three heq
      have hj := joinC_splitC '/' s.data
      rw [h3] at hj
      rw [← hj]
      rfl
    · simp only [digitsLen, Bool.and_eq_true, decide_eq_true_eq] at h
      have hm := h.1.1.1.2.1
      intro hnil
      rw [hnil] at hm
      simp at hm
    · simp only [digitsLen, Bool.and_eq_true, decide_eq_true_eq] at h
      have hm := h.1.1.1.1
      intro ch hch
      exact List.all_eq_true.mp hm ch hch
    · simp only [digitsLen, Bool.and_eq_true, decide_eq_true_eq] at h
      have hm := h.1.1.2.1
      intro ch hch
      exact List.all_eq_true.mp hm ch hch
    · simp only [digitsLen, Bool.and_eq_true, decide_eq_true_eq] at h
      have hm := h.1.2.1
      intro ch hch
      exact List.all_eq_true.mp hm ch hch
  · cases h

/-! ## The written record line: structure, stripping, splitting -/

theorem record_line_data (r : PayRecord) :
    (record_line r).data =
      r.from_date.data ++ '|' :: (r.to_date.data ++ '|' :: (r.name.data ++ '|' ::
        ((floatRepr r.hours).data ++ '|' :: ((floatRepr r.rate).data ++ '|' ::
          (floatRepr (r.tax_rate * 100)).data)))) := by
  unfold record_line
  simp [sdata_append, pipe_data]

theorem floatRepr_data_ne_nil (q : ℚ) : (floatRepr q).data ≠ [] := by
  have hdata : (floatRepr q).data =
      (if q < 0 then ['-'] else []) ++
        natToChars ((q * (10 : ℚ) ^ decExp q).num.natAbs / 10 ^ decExp q) ++ '.' ::
        (if decExp q = 0 then ['0']
         else padZeros (decExp q)
           (natToChars ((q * (10 : ℚ) ^ decExp q).num.natAbs % 10 ^ decExp q))) := rfl
  rw [hdata]
  simp

theorem getLast?_cons_ne {α : Type} (x : α) {b : List α} (h : b ≠ []) :
    (x :: b).getLast? = b.getLast? :=
  getLast?_append_right [x] h

theorem record_line_strip (r : PayRecord)
    (hfd : valid_mdY r.from_date = true) :
    pyStrip (record_line r) = record_line r := by
  obtain ⟨m, d, y, hsp, hdata, hmne, hmdig, hddig, hydig⟩ := valid_mdY_structure hfd
  apply pyStrip_eq_self
  · intro c hc
    rw [record_line_data r] at hc
    rw [head?_append_left _ (by rw [hdata]; simp [hmne])] at hc
    rw [hdata] at hc
    rw [head?_append_left _ hmne] at hc
    exact isDigit_not_ws (hmdig c (mem_of_head? hc))
  · intro c hc
    rw [record_line_data r] at hc
    have hlast : (record_line r).data.getLast? =
        (floatRepr (r.tax_rate * 100)).data.getLast? := by
      rw [record_line_data r]
      rw [getLast?_append_right _ (by simp), getLast?_cons_ne _ (by simp),
        getLast?_append_right _ (by simp), getLast?_cons_ne _ (by simp),
        getLast?_append_right _ (by simp), getLast?_cons_ne _ (by simp),
        getLast?_append_right _ (by simp), getLast?_cons_ne _ (by simp),
        getLast?_append_right _ (by simp),
        getLast?_cons_ne _ (floatRepr_data_ne_nil (r.tax_rate * 100))]
    rw [← record_line_data r] at hc
    rw [hlast] at hc
    exact floatRepr_not_ws c (mem_of_getLast? hc)

theorem valid_no_pipe {s : String} (h : valid_mdY s = true) :
    ∀ ch ∈ s.data, ch ≠ '|' := by
  obtain ⟨m, d, y, hsp, hdata, hmne, hmdig, hddig, hydig⟩ := valid_mdY_structure h
  intro ch hch
  rw [hdata] at hch
  simp only [List.mem_append, List.mem_cons] at hch
  rcases hch with h1 | h1 | h1 | h1 | h1
  · exact isDigit_ne_pipe (hmdig ch h1)
  · subst h1; decide
  · exact isDigit_ne_pipe (hddig ch h1)
  · subst h1; decide
  · exact isDigit_ne_pipe (hydig ch h1)

theorem record_line_split (r : PayRecord)
    (hfd : valid_mdY r.from_date = true) (htd : valid_mdY r.to_date = true)
    (hnm : ∀ ch ∈ r.name.data, ch ≠ '|') :
    pySplit '|' (record_line r) =
      [r.from_date, r.to_date, r.name, floatRepr r.hours, floatRepr r.rate,
        floatRepr (r.tax_rate * 100)] := by
  unfold pySplit
  rw [record_line_data r]
  rw [splitC_append_sep, splitC_append_sep, splitC_append_sep, splitC_append_sep,
    splitC_append_sep]
  rw [splitC_no_sep (valid_no_pipe hfd), splitC_no_sep (valid_no_pipe htd),
    splitC_no_sep hnm, splitC_no_sep floatRepr_no_pipe, splitC_no_sep floatRepr_no_pipe,
    splitC_no_sep floatRepr_no_pipe]
  simp [mk_data]

theorem record_line_data_ne_nil (r : PayRecord) : (record_line r).data ≠ [] := by
  rw [record_line_data r]
  simp

/-- On finite values the entry-menu calculator coincides with the finite
calculator. -/
theorem calculate_payF_finite (h r t : ℚ) :
    calculate_payF (PyFloat.finite h) (PyFloat.finite r) t =
      (PyFloat.finite (h * r), PyFloat.finite (h * r * t),
        PyFloat.finite (h * r - h * r * t)) := rfl

/-- On records with finite values the entry-menu serializer coincides
with the finite-record serializer used by the round-trip statements. -/
theorem record_lineF_finite (fd td nm : String) (h r t g tx n : ℚ) :
    record_lineF ⟨fd, td, nm, PyFloat.finite h, PyFloat.finite r, t,
      PyFloat.finite g, PyFloat.finite tx, PyFloat.finite n⟩ =
      record_line ⟨fd, td, nm, h, r, t, g, tx, n⟩ := rfl

/-! ## Scanning a freshly written record line -/

theorem scan_written_line {r : PayRecord} {req : String}
    (hfd : valid_mdY r.from_date = true) (htd : valid_mdY r.to_date = true)
    (hnm : ∀ ch ∈ r.name.data, ch ≠ '|')
    (hmatch : ¬ (req ≠ "All" ∧ r.from_date ≠ req))
    (hh : IsDecimal r.hours) (hr : IsDecimal r.rate) (ht : IsDecimal (r.tax_rate * 100))
    (n : Nat) (st : ScanState) :
    scan_step req n st (record_line r) =
      st.addMatch ⟨r.from_date, r.to_date, r.name, r.hours, r.rate,
        r.tax_rate * 100 / 100, r.hours * r.rate,
        r.hours * r.rate * (r.tax_rate * 100 / 100),
        r.hours * r.rate - r.hours * r.rate * (r.tax_rate * 100 / 100)⟩ := by
  have hstrip : pyStrip (record_line r) = record_line r := record_line_strip r hfd
  have hne : pyStrip (record_line r) ≠ "" := by
    rw [hstrip]
    intro hc
    exact record_line_data_ne_nil r (congrArg String.data hc)
  have hsplit : pySplit '|' (pyStrip (record_line r)) =
      [r.from_date, r.to_date, r.name, floatRepr r.hours, floatRepr r.rate,
        floatRepr (r.tax_rate * 100)] := by
    rw [hstrip]
    exact record_line_split r hfd htd hnm
  exact scan_step_match hne hsplit hmatch
    (parseFloat_floatRepr hh) (parseFloat_floatRepr hr) (parseFloat_floatRepr ht)

/-! ## Further validator and menu helpers -/

theorem hoursValidate_none {s : String}
    (h : pyFloat s = none ∨
      ∃ v, pyFloat s = some v ∧ PyFloat.ltb v (PyFloat.finite 0) = true) :
    hoursValidate s = none := by
  unfold hoursValidate
  rcases h with h | ⟨v, hv, hneg⟩
  · rw [h]
  · rw [hv]
    simp [if_pos hneg]

theorem rateValidate_none {s : String}
    (h : pyFloat s = none ∨
      ∃ v, pyFloat s = some v ∧ PyFloat.ltb v (PyFloat.finite 0) = true) :
    rateValidate s = none := by
  unfold rateValidate
  rcases h with h | ⟨v, hv, hneg⟩
  · rw [h]
  · rw [hv]
    simp [if_pos hneg]

theorem add_aux_congr (g1 g2 : Nat) (inputs1 inputs2 : List String)
    (session : List PayRecordF) (file : List String)
    (h : read_date false inputs1 = read_date false inputs2)
    (hb1 : inputs1.length ≤ g1 + 1) (hb2 : inputs2.length ≤ g2 + 1) :
    add_employeesAux (g1 + 1) inputs1 session file =
      add_employeesAux (g2 + 1) inputs2 session file := by
  rw [add_unfold g1, add_unfold g2, h]
  cases h1 : read_date false inputs2 with
  | exhausted => rfl
  | quit r => rfl
  | ok fd r1 =>
    have hc1 : r1.length < inputs2.length := readLoopAux_ok_rest h1
    have h1a : read_date false inputs1 = .ok fd r1 := by rw [h, h1]
    have hc1a : r1.length < inputs1.length := readLoopAux_ok_rest h1a
    simp only []
    cases h2 : read_date false r1 with
    | exhausted => rfl
    | quit r => rfl
    | ok td r2 =>
      have hc2 : r2.length < r1.length := readLoopAux_ok_rest h2
      simp only []
      cases h3 : input_name r2 with
      | exhausted => rfl
      | quit r => rfl
      | ok nm r3 =>
        have hc3 : r3.length < r2.length := readLoopAux_ok_rest h3
        simp only []
        cases h4 : input_hours r3 with
        | exhausted => rfl
        | quit r => rfl
        | ok hv r4 =>
          have hc4 : r4.length < r3.length := readLoopAux_ok_rest h4
          simp only []
          cases h5 : input_hourly_rate r4 with
          | exhausted => rfl
          | quit r => rfl
          | ok rv r5 =>
            have hc5 : r5.length < r4.length := readLoopAux_ok_rest h5
            simp only []
            cases h6 : input_tax_rate r5 with
            | exhausted => rfl
            | quit r => rfl
            | ok tv r6 =>
              have hc6 : r6.length < r5.length := readLoopAux_ok_rest h6
              simp only []
              cases r6 with
              | nil => rfl
              | cons c r7 =>
                simp only [List.length_cons] at hc6
                simp only []
                by_cases hcont : pyLower (pyStrip c) = "y"
                · rw [if_pos hcont, if_pos hcont]
                  rw [add_employeesAux_fuel g1 r7 _ _ (by omega)]
                  rw [add_employeesAux_fuel g2 r7 _ _ (by omega)]
                · rw [if_neg hcont, if_neg hcont]

/-! ## A pipe in the name breaks the six-field invariant -/

theorem splitC_length_pos (c : Char) (l : List Char) : 1 ≤ (splitC c l).length := by
  cases hs : splitC c l with
  | nil => exact absurd hs (splitC_ne_nil c l)
  | cons x xs => simp

theorem splitC_length_two {c : Char} {l : List Char} (h : c ∈ l) :
    2 ≤ (splitC c l).length := by
  induction l with
  | nil => cases h
  | cons x xs ih =>
    simp only [splitC]
    by_cases hx : x = c
    · rw [if_pos hx]
      have := splitC_length_pos c xs
      simp
      omega
    · rw [if_neg hx]
      have hmem : c ∈ xs := by
        rcases List.mem_cons.mp h with h1 | h1
        · exact absurd h1.symm hx
        · exact h1
      have h2 := ih hmem
      cases hs : splitC c xs with
      | nil => exact absurd hs (splitC_ne_nil c xs)
      | cons y ys =>
        rw [hs] at h2
        simp at h2 ⊢
        omega

theorem record_line_split_length {r : PayRecord}
    (hfd : valid_mdY r.from_date = true) (htd : valid_mdY r.to_date = true)
    (hpipe : '|' ∈ r.name.data) :
    7 ≤ (pySplit '|' (record_line r)).length := by
  unfold pySplit
  rw [record_line_data r]
  rw [splitC_append_sep, splitC_append_sep, splitC_append_sep, splitC_append_sep,
    splitC_append_sep]
  rw [splitC_no_sep (valid_no_pipe hfd), splitC_no_sep (valid_no_pipe htd),
    splitC_no_sep floatRepr_no_pipe, splitC_no_sep floatRepr_no_pipe,
    splitC_no_sep floatRepr_no_pipe]
  have h2 := splitC_length_two hpipe
  simp
  omega

/-! ## Claim theorems -/

/-- C2: for all hours ≥ 0, rate ≥ 0 and tax_rate in [0,1], `calculate_pay`
returns exactly (gross, tax, net) with gross = hours*rate, tax = gross*tax_rate,
net = gross - tax, and net ≤ gross; the computation is exact (no rounding is
applied inside the calculator). -/
theorem claim_c2 (hours rate tax_rate : ℚ) (hh : 0 ≤ hours) (hr : 0 ≤ rate)
    (ht0 : 0 ≤ tax_rate) (ht1 : tax_rate ≤ 1) :
    calculate_pay hours rate tax_rate =
      (hours * rate, hours * rate * tax_rate, hours * rate - hours * rate * tax_rate) ∧
    (calculate_pay hours rate tax_rate).2.2 ≤ (calculate_pay hours rate tax_rate).1 := by
  refine ⟨rfl, ?_⟩
  show hours * rate - hours * rate * tax_rate ≤ hours * rate
  have hpos : 0 ≤ hours * rate * tax_rate := mul_nonneg (mul_nonneg hh hr) ht0
  linarith

/-- Witness for C2 at hours = 40, rate = 20, tax_rate = 1. -/
theorem claim_c2_witness :
    calculate_pay 40 20 1 = (40 * 20, 40 * 20 * 1, 40 * 20 - 40 * 20 * 1) ∧
    (calculate_pay 40 20 1).2.2 ≤ (calculate_pay 40 20 1).1 :=
  claim_c2 40 20 1 (by decide) (by decide) (by decide) (le_refl 1)

/-- C7: when the storage file does not exist, a report run does not fail:
after the report date is read, the run yields the informational no-data
outcome (an empty result) rather than an error. -/
theorem claim_c7 (inputs : List String) (requested : String) (rest : List String)
    (h : read_date true inputs = .ok requested rest) :
    run_report_from_file inputs none = .noData rest := by
  unfold run_report_from_file
  rw [h]

/-- Witness for C7: a report for the wildcard date on a missing file. -/
theorem claim_c7_witness : run_report_from_file ["All"] none = .noData [] :=
  claim_c7 ["All"] "All" [] rfl

/-- C3: a wildcard report matches every well-formed stored line regardless
of date; a literal-date report matches exactly the well-formed lines whose
from-date field is string-equal to the request; matches are in file order,
and the totals equal the sums of the matched records' recomputed
gross/tax/net (derived values are never read from storage). -/
theorem claim_c3 (requested : String) (lines : List String) :
    (scan_lines "All" lines).matched = lines.filterMap parse_line ∧
    (scan_lines requested lines).matched =
      (lines.filterMap parse_line).filter
        (fun r => decide (requested = "All" ∨ r.from_date = requested)) ∧
    (scan_lines requested lines).totals.count =
      (scan_lines requested lines).matched.length ∧
    (scan_lines requested lines).totals.total_gross =
      ((scan_lines requested lines).matched.map PayRecord.gross).sum ∧
    (scan_lines requested lines).totals.total_tax =
      ((scan_lines requested lines).matched.map PayRecord.tax).sum ∧
    (scan_lines requested lines).totals.total_net =
      ((scan_lines requested lines).matched.map PayRecord.net).sum := by
  have ht := scan_totals requested lines 1
  refine ⟨?_, scan_matched requested lines 1, congrArg Totals.count ht,
    congrArg Totals.total_gross ht, congrArg Totals.total_tax ht,
    congrArg Totals.total_net ht⟩
  rw [show (scan_lines "All" lines).matched = _ from scan_matched "All" lines 1]
  rw [List.filter_eq_self.mpr]
  intro r _
  simp

/-- C4 counterexample: the claim says a line whose numeric fields fail to
parse is reported with its 1-based line number and skipped — with no
side condition.  But the code applies the date-match filter before the
numeric conversion, so under a literal-date request a six-field line with
an unparsable hours field whose from-date does not match is skipped
silently: the scan records no skip entry at all for it. -/
theorem claim_c4_counterexample :
    pySplit '|' "02/02/2025|02/03/2025|A|zz|2|0" =
      ["02/02/2025", "02/03/2025", "A", "zz", "2", "0"] ∧
    pyFloat "zz" = none ∧
    "02/02/2025" ≠ "01/01/2025" ∧
    (scan_lines "01/01/2025" ["02/02/2025|02/03/2025|A|zz|2|0"]).skipped = [] ∧
    (scan_lines "01/01/2025" ["02/02/2025|02/03/2025|A|zz|2|0"]).matched = [] := by
  refine ⟨by decide, by decide, by decide, by decide, by decide⟩

/-- C4 (amended): during a report scan blank lines are skipped silently; a
line with a field count different from six is recorded as malformed with
its 1-based line number and skipped; a line that passes the date filter
(wildcard request, or matching from-date) whose numeric fields fail
`float()` is recorded and skipped the same way; scanning continues, so
well-formed lines after a malformed one are still matched; but a line
that fails the date filter is skipped silently even when its numeric
fields are unparsable, because the filter runs before the conversion. -/
theorem claim_c4_amended :
    (∀ (req : String) (n : Nat) (st : ScanState) (l0 : String) (rest : List String),
        pyStrip l0 = "" →
        scan_linesAux req n st (l0 :: rest) = scan_linesAux req (n + 1) st rest) ∧
    (∀ (req : String) (n : Nat) (st : ScanState) (l0 : String) (rest : List String),
        pyStrip l0 ≠ "" → (pySplit '|' (pyStrip l0)).length ≠ 6 →
        scan_linesAux req n st (l0 :: rest) =
          scan_linesAux req (n + 1) (st.addSkip n (pyStrip l0)) rest) ∧
    (∀ (req : String) (n : Nat) (st : ScanState) (l0 : String) (rest : List String)
        (fd td nm hs rs ts : String),
        pyStrip l0 ≠ "" → pySplit '|' (pyStrip l0) = [fd, td, nm, hs, rs, ts] →
        ¬ (req ≠ "All" ∧ fd ≠ req) →
        (pyFloat hs = none ∨ pyFloat rs = none ∨ pyFloat ts = none) →
        scan_linesAux req n st (l0 :: rest) =
          scan_linesAux req (n + 1) (st.addSkip n (pyStrip l0)) rest) ∧
    (∀ (req : String) (n : Nat) (st : ScanState) (l0 : String) (rest : List String)
        (fd td nm hs rs ts : String),
        pyStrip l0 ≠ "" → pySplit '|' (pyStrip l0) = [fd, td, nm, hs, rs, ts] →
        req ≠ "All" → fd ≠ req →
        scan_linesAux req n st (l0 :: rest) = scan_linesAux req (n + 1) st rest) ∧
    (∀ (req : String) (n : Nat) (pre : List String) (bad : String) (post : List String),
        pyStrip bad ≠ "" → (pySplit '|' (pyStrip bad)).length ≠ 6 →
        (scan_linesAux req n emptyScan (pre ++ bad :: post)).matched =
          (scan_linesAux req n emptyScan pre).matched ++
            (scan_linesAux req (n + pre.length + 1) emptyScan post).matched ∧
        (n + pre.length, pyStrip bad) ∈
          (scan_linesAux req n emptyScan (pre ++ bad :: post)).skipped) := by
  refine ⟨?_, ?_, ?_, ?_, ?_⟩
  · intro req n st l0 rest hb
    show scan_linesAux req (n + 1) (scan_step req n st l0) rest = _
    rw [scan_step_blank hb]
  · intro req n st l0 rest hne hlen
    show scan_linesAux req (n + 1) (scan_step req n st l0) rest = _
    rw [scan_step_badsplit hne hlen]
  · intro req n st l0 rest fd td nm hs rs ts hne hsplit hm hnum
    show scan_linesAux req (n + 1) (scan_step req n st l0) rest = _
    refine congrArg (fun st2 => scan_linesAux req (n + 1) st2 rest) ?_
    refine scan_step_badnum hne hsplit hm ?_
    exact hnum.imp parseFloat_none_of_pyFloat
      (fun h2 => h2.imp parseFloat_none_of_pyFloat parseFloat_none_of_pyFloat)
  · intro req n st l0 rest fd td nm hs rs ts hne hsplit hra hfd
    show scan_linesAux req (n + 1) (scan_step req n st l0) rest = _
    rw [scan_step_nomatch hne hsplit ⟨hra, hfd⟩]
  · intro req n pre bad post hne hlen
    rw [scan_linesAux_append]
    show _ ∧ _
    have hstep : scan_linesAux req (n + pre.length)
        (scan_linesAux req n emptyScan pre) (bad :: post) =
        scan_linesAux req (n + pre.length + 1)
          ((scan_linesAux req n emptyScan pre).addSkip (n + pre.length) (pyStrip bad))
          post := by
      show scan_linesAux req (n + pre.length + 1)
        (scan_step req (n + pre.length) (scan_linesAux req n emptyScan pre) bad) post = _
      rw [scan_step_badsplit hne hlen]
    rw [hstep]
    rw [scan_linesAux_accum req post (n + pre.length + 1)]
    constructor
    · rfl
    · show (n + pre.length, pyStrip bad) ∈
        ((scan_linesAux req n emptyScan pre).addSkip (n + pre.length) (pyStrip bad)).skipped ++
          (scan_linesAux req (n + pre.length + 1) emptyScan post).skipped
      rw [List.mem_append]
      refine Or.inl ?_
      show (n + pre.length, pyStrip bad) ∈
        (scan_linesAux req n emptyScan pre).skipped ++ [(n + pre.length, pyStrip bad)]
      simp

/-- Witness for C4 (amended): a blank line, a malformed two-field line, a
matching line with a non-numeric hours field, a non-matching line with a
non-numeric hours field (skipped silently), and a malformed line followed
by a well-formed one. -/
theorem claim_c4_amended_witness :
    (scan_linesAux "All" 1 emptyScan ("" :: ["04/20/2025|04/21/2025|A|1|2|0"]) =
      scan_linesAux "All" 2 emptyScan ["04/20/2025|04/21/2025|A|1|2|0"]) ∧
    (scan_linesAux "All" 1 emptyScan ("xx" :: []) =
      scan_linesAux "All" 2 (emptyScan.addSkip 1 "xx") []) ∧
    (scan_linesAux "All" 1 emptyScan ("04/20/2025|04/21/2025|A|zz|2|0" :: []) =
      scan_linesAux "All" 2 (emptyScan.addSkip 1 "04/20/2025|04/21/2025|A|zz|2|0") []) ∧
    (scan_linesAux "01/01/2025" 1 emptyScan ("02/02/2025|02/03/2025|A|zz|2|0" :: []) =
      scan_linesAux "01/01/2025" 2 emptyScan []) ∧
    ((scan_linesAux "All" 1 emptyScan
        (([] : List String) ++ "xx" :: ["04/20/2025|04/21/2025|A|1|2|0"])).matched =
      (scan_linesAux "All" 1 emptyScan []).matched ++
        (scan_linesAux "All" (1 + ([] : List String).length + 1) emptyScan
          ["04/20/2025|04/21/2025|A|1|2|0"]).matched ∧
      (1 + ([] : List String).length, pyStrip "xx") ∈
        (scan_linesAux "All" 1 emptyScan
          (([] : List String) ++ "xx" :: ["04/20/2025|04/21/2025|A|1|2|0"])).skipped) := by
  refine ⟨claim_c4_amended.1 "All" 1 emptyScan "" _ rfl, ?_, ?_, ?_, ?_⟩
  · exact claim_c4_amended.2.1 "All" 1 emptyScan "xx" [] (by decide) (by decide)
  · exact claim_c4_amended.2.2.1 "All" 1 emptyScan "04/20/2025|04/21/2025|A|zz|2|0" []
      "04/20/2025" "04/21/2025" "A" "zz" "2" "0" (by decide) (by decide)
      (by intro hc; exact hc.1 rfl) (Or.inl (by decide))
  · exact claim_c4_amended.2.2.2.1 "01/01/2025" 1 emptyScan
      "02/02/2025|02/03/2025|A|zz|2|0" [] "02/02/2025" "02/03/2025" "A" "zz" "2" "0"
      (by decide) (by decide) (by decide) (by decide)
  · exact claim_c4_amended.2.2.2.2 "All" 1 [] "xx" ["04/20/2025|04/21/2025|A|1|2|0"]
      (by decide) (by decide)

/-- C6: at every reader, entering the reserved token `End` (after trimming,
case-insensitively) and then declining the quit confirmation re-prompts for
the same field with the field still unset: the reader on the remaining
script behaves as if the two inputs had never been given; consequently the
entry menu adds no record to the session and writes nothing to the file for
the cancelled token. -/
theorem claim_c6 (e nn : String) (rest : List String) (file : List String)
    (allow_all : Bool) (he : pyLower (pyStrip e) = "end")
    (hn : pyLower (pyStrip nn) = "n" ∨ pyLower (pyStrip nn) = "no") :
    read_date allow_all (e :: nn :: rest) = read_date allow_all rest ∧
    input_name (e :: nn :: rest) = input_name rest ∧
    input_hours (e :: nn :: rest) = input_hours rest ∧
    input_hourly_rate (e :: nn :: rest) = input_hourly_rate rest ∧
    input_tax_rate (e :: nn :: rest) = input_tax_rate rest ∧
    add_employees_menu (e :: nn :: rest) file = add_employees_menu rest file := by
  refine ⟨read_date_end_cancel allow_all e nn rest he hn,
    input_name_end_cancel e nn rest he hn,
    input_hours_end_cancel e nn rest he hn,
    input_hourly_rate_end_cancel e nn rest he hn,
    input_tax_rate_end_cancel e nn rest he hn, ?_⟩
  unfold add_employees_menu
  simp only [List.length_cons]
  have hrhs : add_employeesAux rest.length rest [] file =
      add_employeesAux (rest.length + 1) rest [] file :=
    (add_employeesAux_fuel (rest.length + 1) rest [] file (by omega)).symm
  rw [hrhs]
  exact add_aux_congr (rest.length + 1) rest.length (e :: nn :: rest) rest [] file
    (read_date_end_cancel false e nn rest he hn) (by simp) (by omega)

/-- Witness for C6 with the token `End` and the answer `n`. -/
theorem claim_c6_witness :
    read_date false ["End", "n"] = read_date false [] ∧
    input_name ["End", "n"] = input_name [] ∧
    input_hours ["End", "n"] = input_hours [] ∧
    input_hourly_rate ["End", "n"] = input_hourly_rate [] ∧
    input_tax_rate ["End", "n"] = input_tax_rate [] ∧
    add_employees_menu ["End", "n"] [] = add_employees_menu [] [] :=
  claim_c6 "End" "n" [] [] false (by decide) (Or.inl (by decide))

/-- C8 counterexample: the claim says every value returned by the hours
and rate readers is a non-negative finite number, with non-finite input
rejected and an error message shown.  But the code's only check is
`value < 0`: `float('inf')` succeeds and `inf < 0` is false, so
`input_hours` accepts `inf`, and `input_hourly_rate` likewise accepts
`nan` — both readers return non-finite values with no error. -/
theorem claim_c8_counterexample :
    pyFloat "inf" = some PyFloat.pinf ∧
    input_hours ["inf"] = .ok PyFloat.pinf [] ∧
    input_hourly_rate ["nan"] = .ok PyFloat.nan [] ∧
    (∀ q : ℚ, PyFloat.pinf ≠ PyFloat.finite q) := by
  refine ⟨by decide, by decide, by decide, fun q h => PyFloat.noConfusion h⟩

/-- C8 (amended): the hours and rate readers validate sign but not
finiteness: every accepted value is `inf`, `nan`, or a non-negative
finite number; any input that fails `float()` or parses to a value
comparing below zero (negative finite values and `-inf`) is rejected and
re-prompted.  The tax-rate reader's chained range check does reject the
non-finite values, so the tax fraction is always finite and in [0, 1]. -/
theorem claim_c8_amended :
    (∀ (inputs : List String) (x : PyFloat) (r : List String),
        input_hours inputs = .ok x r →
        x = PyFloat.pinf ∨ x = PyFloat.nan ∨ ∃ q : ℚ, x = PyFloat.finite q ∧ 0 ≤ q) ∧
    (∀ (inputs : List String) (x : PyFloat) (r : List String),
        input_hourly_rate inputs = .ok x r →
        x = PyFloat.pinf ∨ x = PyFloat.nan ∨ ∃ q : ℚ, x = PyFloat.finite q ∧ 0 ≤ q) ∧
    (∀ (s : String) (rest : List String),
        pyStrip s ≠ "" → pyLower (pyStrip s) ≠ "end" →
        (pyFloat (pyStrip s) = none ∨
          ∃ v, pyFloat (pyStrip s) = some v ∧ PyFloat.ltb v (PyFloat.finite 0) = true) →
        input_hours (s :: rest) = input_hours rest) ∧
    (∀ (s : String) (rest : List String),
        pyStrip s ≠ "" → pyLower (pyStrip s) ≠ "end" →
        (pyFloat (pyStrip s) = none ∨
          ∃ v, pyFloat (pyStrip s) = some v ∧ PyFloat.ltb v (PyFloat.finite 0) = true) →
        input_hourly_rate (s :: rest) = input_hourly_rate rest) ∧
    (∀ (inputs : List String) (t : ℚ) (r : List String),
        input_tax_rate inputs = .ok t r → 0 ≤ t ∧ t ≤ 1) := by
  have hval : ∀ {x : PyFloat}, PyFloat.ltb x (PyFloat.finite 0) = false →
      x = PyFloat.pinf ∨ x = PyFloat.nan ∨ ∃ q : ℚ, x = PyFloat.finite q ∧ 0 ≤ q := by
    intro x hlt
    cases x with
    | finite q =>
      refine Or.inr (Or.inr ⟨q, rfl, ?_⟩)
      have hq : decide (q < 0) = false := hlt
      exact not_lt.mp (of_decide_eq_false hq)
    | pinf => exact Or.inl rfl
    | ninf => exact Bool.noConfusion hlt
    | nan => exact Or.inr (Or.inl rfl)
  refine ⟨?_, ?_, ?_, ?_, ?_⟩
  · intro inputs x r h
    rcases readLoopAux_ok_value h with ⟨s0, hs0⟩ | ⟨s0, hs0⟩
    · cases hs0
    · exact hval (hoursValidate_some hs0).1
  · intro inputs x r h
    rcases readLoopAux_ok_value h with ⟨s0, hs0⟩ | ⟨s0, hs0⟩
    · cases hs0
    · exact hval (rateValidate_some hs0).1
  · intro s rest hne hend hbad
    exact readLoop_invalid _ _ s rest hne rfl hend (hoursValidate_none hbad)
  · intro s rest hne hend hbad
    exact readLoop_invalid _ _ s rest hne rfl hend (rateValidate_none hbad)
  · intro inputs t r h
    rcases readLoopAux_ok_value h with ⟨s0, hs0⟩ | ⟨s0, hs0⟩
    · cases hs0
    · obtain ⟨p, hp, hp0, hp100, ht⟩ := taxValidate_some hs0
      subst ht
      constructor
      · exact div_nonneg hp0 (by norm_num)
      · exact (div_le_one (by norm_num)).mpr hp100

unseal Rat.add Rat.mul Rat.sub Rat.inv in
/-- Witness for C8 (amended): the accepted inputs `5`, `7` and `3` give a
non-negative finite value (resp. a tax fraction in [0, 1]); the inputs
`-3` and `abc` are rejected and re-prompted. -/
theorem claim_c8_amended_witness :
    (PyFloat.finite 5 = PyFloat.pinf ∨ PyFloat.finite 5 = PyFloat.nan ∨
      ∃ q : ℚ, PyFloat.finite 5 = PyFloat.finite q ∧ 0 ≤ q) ∧
    (PyFloat.finite 7 = PyFloat.pinf ∨ PyFloat.finite 7 = PyFloat.nan ∨
      ∃ q : ℚ, PyFloat.finite 7 = PyFloat.finite q ∧ 0 ≤ q) ∧
    input_hours ["-3"] = input_hours [] ∧
    input_hourly_rate ["abc"] = input_hourly_rate [] ∧
    (0 ≤ (3 : ℚ) / 100 ∧ (3 : ℚ) / 100 ≤ 1) :=
  ⟨claim_c8_amended.1 ["5"] (PyFloat.finite 5) [] (by decide),
    claim_c8_amended.2.1 ["7"] (PyFloat.finite 7) [] (by decide),
    claim_c8_amended.2.2.1 "-3" [] (by decide) (by decide)
      (Or.inr ⟨PyFloat.finite (-3), by decide, by decide⟩),
    claim_c8_amended.2.2.2.1 "abc" [] (by decide) (by decide) (Or.inl (by decide)),
    claim_c8_amended.2.2.2.2 ["3"] ((3 : ℚ) / 100) [] (by decide)⟩

/-- C10 (implicit): the name reader accepts any non-blank trimmed text,
including text containing the pipe delimiter; for such a name the written
line splits into more than six fields, so every subsequent report scan
reports the line as malformed and skips it: the six-field file-format
invariant is not preserved for all accepted inputs. -/
theorem claim_c10 (s : String) (rest : List String) (r : PayRecord)
    (hs_ne : pyStrip s ≠ "") (hs_end : pyLower (pyStrip s) ≠ "end")
    (hfd : valid_mdY r.from_date = true) (htd : valid_mdY r.to_date = true)
    (hpipe : '|' ∈ r.name.data) :
    input_name (s :: rest) = .ok (pyStrip s) rest ∧
    (pySplit '|' (record_line r)).length ≠ 6 ∧
    (∀ (req : String) (n : Nat) (st : ScanState) (post : List String),
        scan_linesAux req n st (record_line r :: post) =
          scan_linesAux req (n + 1) (st.addSkip n (record_line r)) post) := by
  have hstrip := record_line_strip r hfd
  have hlen7 := record_line_split_length hfd htd hpipe
  refine ⟨readLoop_accept _ _ s rest hs_ne rfl hs_end rfl, by omega, ?_⟩
  intro req n st post
  show scan_linesAux req (n + 1) (scan_step req n st (record_line r)) post = _
  have hne : pyStrip (record_line r) ≠ "" := by
    rw [hstrip]
    intro hc
    exact record_line_data_ne_nil r (congrArg String.data hc)
  have hlen : (pySplit '|' (pyStrip (record_line r))).length ≠ 6 := by
    rw [hstrip]
    omega
  rw [scan_step_badsplit hne hlen, hstrip]

/-- Witness for C10 with the name `a|b`. -/
theorem claim_c10_witness :
    input_name ["a|b"] = .ok (pyStrip "a|b") [] ∧
    (pySplit '|'
      (record_line ⟨"04/20/2025", "04/21/2025", "a|b", 1, 1, 0, 1, 0, 1⟩)).length ≠ 6 ∧
    scan_linesAux "All" 1 emptyScan
        [record_line ⟨"04/20/2025", "04/21/2025", "a|b", 1, 1, 0, 1, 0, 1⟩] =
      scan_linesAux "All" 2
        (emptyScan.addSkip 1
          (record_line ⟨"04/20/2025", "04/21/2025", "a|b", 1, 1, 0, 1, 0, 1⟩)) [] := by
  have h := claim_c10 "a|b" []
    ⟨"04/20/2025", "04/21/2025", "a|b", 1, 1, 0, 1, 0, 1⟩
    (by decide) (by decide) (by decide) (by decide) (by decide)
  exact ⟨h.1, h.2.1, h.2.2 "All" 1 emptyScan []⟩

unseal Rat.add Rat.mul Rat.sub Rat.inv in
/-- C1 counterexample: every field of this record is accepted by the entry
readers (the claim's precondition) but the name contains the pipe
delimiter, so writing the record and re-reading the file with an exact
match on its from-date reproduces nothing: the match list is empty. -/
theorem claim_c1_counterexample :
    input_name ["a|b"] = .ok "a|b" [] ∧
    valid_mdY "04/20/2025" = true ∧ valid_mdY "04/21/2025" = true ∧
    parseFloat "1" = some 1 ∧ parseFloat "0" = some 0 ∧
    (scan_lines "04/20/2025"
        (write_record_to_file
          ⟨"04/20/2025", "04/21/2025", "a|b", 1, 1, 0, 1, 0, 1⟩ [])).matched = [] := by
  decide

/-- C1 (amended): for every record accepted by the entry readers — valid
from/to dates, a non-empty name, reader-accepted hours, rate and tax
percent, and the derived pay computed by the calculator — and whose name
contains no pipe character, writing the record with
`write_record_to_file` and re-reading via the report scan with an exact
match on its from-date appends exactly that record to the matches: the
same hours, rate and tax_rate are reproduced and the recomputed
gross/tax/net coincide with the in-memory values.  (The pipe-free-name
condition is forced by the counterexample.) -/
theorem claim_c1_amended (file : List String) (r : PayRecord)
    (hfd : valid_mdY r.from_date = true) (htd : valid_mdY r.to_date = true)
    (hname_ne : r.name ≠ "") (hname_nopipe : ∀ ch ∈ r.name.data, ch ≠ '|')
    (hhours : ∃ s, parseFloat s = some r.hours ∧ 0 ≤ r.hours)
    (hrate : ∃ s, parseFloat s = some r.rate ∧ 0 ≤ r.rate)
    (htax : ∃ s p, parseFloat s = some p ∧ 0 ≤ p ∧ p ≤ 100 ∧ r.tax_rate = p / 100)
    (hg : r.gross = r.hours * r.rate) (htx : r.tax = r.gross * r.tax_rate)
    (hnet : r.net = r.gross - r.tax) :
    (scan_lines r.from_date (write_record_to_file r file)).matched =
      (scan_lines r.from_date file).matched ++ [r] := by
  obtain ⟨sh, hsh, hh0⟩ := hhours
  obtain ⟨sr, hsr, hr0⟩ := hrate
  obtain ⟨stx, p, hstx, hp0, hp100, hpt⟩ := htax
  have hdh : IsDecimal r.hours := parseFloat_isDecimal hsh
  have hdr : IsDecimal r.rate := parseFloat_isDecimal hsr
  have hpt100 : r.tax_rate * 100 = p := by
    rw [hpt]
    field_simp
  have hdt : IsDecimal (r.tax_rate * 100) := by
    rw [hpt100]
    exact parseFloat_isDecimal hstx
  have ht100 : r.tax_rate * 100 / 100 = r.tax_rate := by
    field_simp
  have hrec : (⟨r.from_date, r.to_date, r.name, r.hours, r.rate,
      r.tax_rate * 100 / 100, r.hours * r.rate,
      r.hours * r.rate * (r.tax_rate * 100 / 100),
      r.hours * r.rate - r.hours * r.rate * (r.tax_rate * 100 / 100)⟩ : PayRecord) = r := by
    rw [ht100, ← hg, ← htx, ← hnet]
  unfold scan_lines write_record_to_file
  rw [scan_linesAux_append]
  have hstep : scan_step r.from_date (1 + file.length)
      (scan_linesAux r.from_date 1 emptyScan file) (record_line r) =
        (scan_linesAux r.from_date 1 emptyScan file).addMatch
          ⟨r.from_date, r.to_date, r.name, r.hours, r.rate,
            r.tax_rate * 100 / 100, r.hours * r.rate,
            r.hours * r.rate * (r.tax_rate * 100 / 100),
            r.hours * r.rate - r.hours * r.rate * (r.tax_rate * 100 / 100)⟩ :=
    scan_written_line hfd htd hname_nopipe (fun hc => hc.2 rfl) hdh hdr hdt
      (1 + file.length) (scan_linesAux r.from_date 1 emptyScan file)
  show (scan_step r.from_date (1 + file.length)
      (scan_linesAux r.from_date 1 emptyScan file) (record_line r)).matched =
    (scan_linesAux r.from_date 1 emptyScan file).matched ++ [r]
  rw [hstep]
  show (scan_linesAux r.from_date 1 emptyScan file).matched ++ [_] =
    (scan_linesAux r.from_date 1 emptyScan file).matched ++ [r]
  rw [hrec]

unseal Rat.add Rat.mul Rat.sub Rat.inv in
/-- Witness for C1 (amended): a concrete accepted record with a pipe-free
name round-trips through the file. -/
theorem claim_c1_amended_witness :
    (scan_lines "04/20/2025"
        (write_record_to_file
          ⟨"04/20/2025", "04/21/2025", "Jo", 1, 1, 0, 1, 0, 1⟩ [])).matched =
      (scan_lines "04/20/2025" []).matched ++
        [⟨"04/20/2025", "04/21/2025", "Jo", 1, 1, 0, 1, 0, 1⟩] :=
  claim_c1_amended [] ⟨"04/20/2025", "04/21/2025", "Jo", 1, 1, 0, 1, 0, 1⟩
    (by decide) (by decide) (by decide) (by decide)
    ⟨"1", by decide, by decide⟩ ⟨"1", by decide, by decide⟩
    ⟨"0", 0, by decide, by decide, by decide, by decide⟩
    (by decide) (by decide) (by decide)
